import Mathlib

/-!
# Example code of "Getting Started with the Xilinx Zynq FPGA and Vivado"

A shallow embedding of the example programs and proofs about them.  The first part
(namespace `DmaDriver`) covers the PetaLinux DMA driver
(`example_code/petalinux_dma/dma_driver/dma.c`, `dma.h`); the second part (namespace
`BookExamples`) covers the bare-metal test programs: the max-value test and its LFSR, the
BRAM reverse test, the stream multiplier test, `checkCorrectness`, the three `mem_init`
programs, the `TXSIZE` rule and the CORDIC data formats.

Conventions of the embedding

* C `int` values are `Int`; `unsigned int` values are `Nat` reduced modulo `2^32`.
* The DMA register file behind `dma_cfg_base` is an array of 32-bit words, indexed by
  word (`offset/4`, as in the `set_dma_reg` / `get_dma_reg` macros).  Every access the
  driver makes is appended to a log, so that the order of register writes can be stated.
* Reads of the (volatile) registers are answered by a hardware oracle `hw t w`: the value
  the hardware returns when access number `t` is a read of word `w`.
* System calls (`open`, `mmap`, `ioctl`, `close`, `munmap`) take their outcome from an
  explicit environment record and are appended to a trace.
* A counting loop `for (int i = lo; i < lo + n; i++)` is `forRange body lo n`.
* Arrays and memories are functions from the index to the value.
* `printf` output is not modelled.
-/

namespace DmaDriver

/-! ## Configuration and register macros (`dma.h`) -/

def DMA_BASE : Nat := 0x40400000
def MAX_DMA_LEN_BITS : Nat := 14
def DMA_MMAP_LEN : Nat := 4096

def MM2S_CNTL_REG : Nat := 0x00
def MM2S_STATUS_REG : Nat := 0x04
def MM2S_SRC_ADDR_REG : Nat := 0x18
def MM2S_LEN_REG : Nat := 0x28

def S2MM_CNTL_REG : Nat := 0x30
def S2MM_STATUS_REG : Nat := 0x34
def S2MM_DEST_ADDR_REG : Nat := 0x48
def S2MM_LEN_REG : Nat := 0x58

def DMA_HALT : Nat := 0
def DMA_START : Nat := 1
def DMA_RESET : Nat := 4
def DMA_IDLE : Nat := 2

/-! ## Machine words -/

/-- The 32-bit pattern of a C `int` (two's complement). -/
def wordOfInt (v : Int) : Nat := (v % 2 ^ 32).toNat

/-- Conversion of an integer value to `unsigned int`. -/
def toUInt32 (v : Int) : Nat := (v % 2 ^ 32).toNat

/-! ## The register file -/

/-- One access to a DMA register: the word index and the value read or written. -/
inductive Access where
  | read (w v : Nat)
  | write (w v : Nat)
  deriving DecidableEq, Repr

/-- The DMA register file: current contents of every word and the log of accesses, oldest
first. -/
structure RegFile where
  word : Nat → Nat
  log : List Access

/-- The macro `set_dma_reg(offset,value)`: `dma_cfg_base[offset/4] = value`. -/
def set_dma_reg (offset : Nat) (value : Nat) (rf : RegFile) : RegFile :=
  { word := fun w => if w = offset / 4 then value % 2 ^ 32 else rf.word w
    log := rf.log ++ [Access.write (offset / 4) (value % 2 ^ 32)] }

/-- The macro `get_dma_reg(offset)`: a volatile read of `dma_cfg_base[offset/4]`, answered
by the hardware. -/
def get_dma_reg (hw : Nat → Nat → Nat) (offset : Nat) (rf : RegFile) : Nat × RegFile :=
  let v := hw rf.log.length (offset / 4) % 2 ^ 32
  (v, { rf with log := rf.log ++ [Access.read (offset / 4) v] })

/-! ## Driver globals -/

/-- The global variables of the driver (`dma.h`).  Pointers are addresses. -/
structure Globals where
  mem_fd : Int
  memalloc_dev_fd : Int
  dma_cfg_base : Nat
  txbase : Nat
  rxbase : Nat
  tx_buffer_id : Int
  rx_buffer_id : Int
  tx_phy_addr : Nat
  rx_phy_addr : Nat
  deriving DecidableEq, Repr

/-- Static storage is zero-initialised. -/
def Globals.initial : Globals :=
  { mem_fd := 0, memalloc_dev_fd := 0, dma_cfg_base := 0, txbase := 0, rxbase := 0,
    tx_buffer_id := 0, rx_buffer_id := 0, tx_phy_addr := 0, rx_phy_addr := 0 }

/-! ## `check_size`, `dma_reset`, `dma_rx`, `dma_tx` -/

/-- The function `check_size`: 0 when the transfer size is legal, -1 otherwise. -/
def check_size (size : Int) : Int :=
  if size < 4 then -1
  else if Int.land size 0x3 ≠ 0 then -1
  else if size ≥ ((1 <<< MAX_DMA_LEN_BITS : Nat) : Int) then -1
  else 0

/-- The function `dma_reset`. -/
def dma_reset (rf : RegFile) : RegFile :=
  let rf := set_dma_reg MM2S_CNTL_REG DMA_RESET rf
  set_dma_reg S2MM_CNTL_REG DMA_RESET rf

/-- The function `dma_rx`: the return value and the register file after the call. -/
def dma_rx (g : Globals) (size : Int) (rf : RegFile) : Int × RegFile :=
  let res := check_size size
  if res ≠ 0 then (res, rf)
  else
    let rf := set_dma_reg S2MM_CNTL_REG 0 rf
    let rf := set_dma_reg S2MM_DEST_ADDR_REG g.rx_phy_addr rf
    let rf := set_dma_reg S2MM_CNTL_REG DMA_START rf
    let rf := set_dma_reg S2MM_LEN_REG (wordOfInt size) rf
    (0, rf)

/-- The function `dma_tx`: the return value and the register file after the call. -/
def dma_tx (g : Globals) (size : Int) (rf : RegFile) : Int × RegFile :=
  let res := check_size size
  if res ≠ 0 then (res, rf)
  else
    let rf := set_dma_reg MM2S_CNTL_REG 0 rf
    let rf := set_dma_reg MM2S_SRC_ADDR_REG g.tx_phy_addr rf
    let rf := set_dma_reg MM2S_CNTL_REG DMA_START rf
    let rf := set_dma_reg MM2S_LEN_REG (wordOfInt size) rf
    (0, rf)

/-! ## `dma_sync` -/

/-- The loop condition `s2mm_busy() || mm2s_busy()`; the second register is read only when
the first operand is false. -/
def busy_cond (hw : Nat → Nat → Nat) (rf : RegFile) : Bool × RegFile :=
  let r1 := get_dma_reg hw S2MM_STATUS_REG rf
  if (r1.1 &&& DMA_IDLE) = 0 then (true, r1.2)
  else
    let r2 := get_dma_reg hw MM2S_STATUS_REG r1.2
    (decide ((r2.1 &&& DMA_IDLE) = 0), r2.2)

/-- What a call of `dma_sync` leaves behind: the return value, the number of times the loop
condition was evaluated (instrumentation, not a program variable) and the register file. -/
structure SyncResult where
  ret : Int
  evals : Nat
  rf : RegFile

/-- The `while` loop of `dma_sync`, entered with the given value of `its`.  `fuel` bounds
the number of evaluations of the loop condition; `none` means the fuel ran out. -/
def dma_sync_loop (hw : Nat → Nat → Nat) : Nat → Int → Nat → RegFile → Option SyncResult
  | 0, _, _, _ => none
  | fuel + 1, its, evals, rf =>
    let c := busy_cond hw rf
    if c.1 = true then
      let its := its + 1
      if its = 1000000 then
        let p1 := get_dma_reg hw MM2S_STATUS_REG c.2
        let p2 := get_dma_reg hw S2MM_STATUS_REG p1.2
        some ⟨-1, evals + 1, p2.2⟩
      else dma_sync_loop hw fuel its (evals + 1) c.2
    else some ⟨0, evals + 1, c.2⟩

/-- The function `dma_sync` (`int its=0;` followed by the loop). -/
def dma_sync (hw : Nat → Nat → Nat) (fuel : Nat) (rf : RegFile) : Option SyncResult :=
  dma_sync_loop hw fuel 0 0 rf

/-- The register file at the start of evaluation number `k` (from 0) of the loop condition,
when the loop keeps polling. -/
def pollState (hw : Nat → Nat → Nat) (rf : RegFile) : Nat → RegFile
  | 0 => rf
  | k + 1 => (busy_cond hw (pollState hw rf k)).2

/-- Whether the busy condition holds on evaluation number `k` (from 0). -/
def busyAt (hw : Nat → Nat → Nat) (rf : RegFile) (k : Nat) : Bool :=
  (busy_cond hw (pollState hw rf k)).1

/-- The number of register accesses made before evaluation number `k` (from 0) of the loop
condition of `dma_sync`, when `t0` accesses were made before the call and the loop keeps
polling: an evaluation that reads the `S2MM` status register with the idle bit clear makes
one read, any other evaluation reads both status registers. -/
def evalStart (hw : Nat → Nat → Nat) (t0 : Nat) : Nat → Nat
  | 0 => t0
  | k + 1 =>
    if (hw (evalStart hw t0 k) (S2MM_STATUS_REG / 4) % 2 ^ 32) &&& DMA_IDLE = 0
    then evalStart hw t0 k + 1 else evalStart hw t0 k + 2

/-- An access is a read. -/
def Access.isRead : Access → Bool
  | Access.read _ _ => true
  | Access.write _ _ => false

/-- The register file `rf2` comes from `rf1` by register reads only: the contents are the
same and the log has grown by read accesses. -/
def ReadsOnly (rf1 rf2 : RegFile) : Prop :=
  rf2.word = rf1.word ∧ ∃ reads, rf2.log = rf1.log ++ reads ∧ ∀ a ∈ reads, a.isRead = true

/-! ## System calls -/

/-- The device files the driver opens: `/dev/mem` and `/dev/memalloc`. -/
inductive Device where
  | mem
  | memalloc
  deriving DecidableEq, Repr

/-- Modelled from the spec: the header `memalloc.h` that defines the request codes of the
memalloc module is missing from the sources and the specification does not describe it, so
only the four names the driver uses are kept. -/
inductive MemallocCmd where
  | RESERVE
  | GET_PHYSICAL
  | ACTIVATE_BUFFER
  | RELEASE
  deriving DecidableEq, Repr

/-- Modelled from the spec: the declaration of the argument block of the memalloc requests
lives in `memalloc.h`, which is missing from the sources and which the specification does
not describe.  It is given the three fields the driver accesses; `buffer_id` is read as an
`int` and `phys_addr` is converted to `unsigned int` where the driver stores it. -/
structure ioctl_arg_t where
  buffer_size : Int
  buffer_id : Int
  phys_addr : Int
  deriving DecidableEq, Repr

/-- The null pointer. -/
def NULL : Nat := 0

/-- The value `(void*)-1` by which `mmap` reports failure (32-bit addresses). -/
def MAP_FAILED : Nat := 2 ^ 32 - 1

/-- A system call made by the driver, with its arguments and its outcome.  For `ioctl`,
`arg` is the argument block passed in and `out` its contents on return. -/
inductive Syscall where
  | open (dev : Device) (ret : Int)
  | mmap (length : Int) (fd : Int) (offset : Nat) (ret : Nat)
  | ioctl (fd : Int) (cmd : MemallocCmd) (arg out : ioctl_arg_t) (status : Int)
  | close (fd : Int)
  | munmap (addr : Nat) (length : Nat)
  deriving DecidableEq, Repr

/-- The outcome of one `ioctl` call: the value returned and the argument block on return. -/
structure IoctlOut where
  status : Int
  arg : ioctl_arg_t
  deriving DecidableEq, Repr

/-- The outcomes of the calls made by `dma_cleanup`; `stack` is the indeterminate initial
content of its local `ioctl_arg`. -/
structure CleanupEnv where
  stack : ioctl_arg_t
  release_tx : IoctlOut
  release_rx : IoctlOut
  deriving DecidableEq, Repr

/-- The outcomes of the calls made by `dma_init`, one field per call site in program order;
`stack` is the indeterminate initial content of its local `ioctl_arg`, `cleanup` holds the
outcomes for the call of `dma_cleanup` on an error path. -/
structure InitEnv where
  stack : ioctl_arg_t
  open_mem : Int
  mmap_cfg : Nat
  open_memalloc : Int
  reserve_tx : IoctlOut
  getphys_tx : IoctlOut
  activate_tx : IoctlOut
  mmap_tx : Nat
  reserve_rx : IoctlOut
  getphys_rx : IoctlOut
  activate_rx : IoctlOut
  mmap_rx : Nat
  cleanup : CleanupEnv
  deriving DecidableEq, Repr

/-- The function `dma_cleanup`: the system calls it makes, in order.  It changes no global. -/
def dma_cleanup (env : CleanupEnv) (g : Globals) : List Syscall :=
  let arg := { env.stack with buffer_id := g.tx_buffer_id }
  let t := [Syscall.ioctl g.memalloc_dev_fd MemallocCmd.RELEASE arg env.release_tx.arg
    env.release_tx.status]
  let arg := { env.release_tx.arg with buffer_id := g.rx_buffer_id }
  let t := t ++ [Syscall.ioctl g.memalloc_dev_fd MemallocCmd.RELEASE arg env.release_rx.arg
    env.release_rx.status]
  let t := if g.memalloc_dev_fd > -1 then t ++ [Syscall.close g.memalloc_dev_fd] else t
  let t := if g.dma_cfg_base ≠ NULL then t ++ [Syscall.munmap g.dma_cfg_base DMA_MMAP_LEN]
    else t
  let t := if g.mem_fd > -1 then t ++ [Syscall.close g.mem_fd] else t
  t

/-- What a call of `dma_init` leaves behind: the return value, the globals and the system
calls made, in order. -/
structure InitResult where
  ret : Int
  g : Globals
  trace : List Syscall
  deriving DecidableEq, Repr

/-- The function `dma_init`, called with the globals `g`. -/
def dma_init (env : InitEnv) (size : Int) (g : Globals) : InitResult :=
  let res := check_size size
  if res ≠ 0 then ⟨res, g, []⟩
  else
    -- mmap the DMA control interface
    let g := { g with mem_fd := env.open_mem }
    let t := [Syscall.open Device.mem env.open_mem]
    if g.mem_fd = -1 then ⟨-1, g, t ++ dma_cleanup env.cleanup g⟩
    else
      let g := { g with dma_cfg_base := env.mmap_cfg }
      let t := t ++ [Syscall.mmap DMA_MMAP_LEN g.mem_fd DMA_BASE env.mmap_cfg]
      if g.dma_cfg_base = NULL then ⟨-1, g, t ++ dma_cleanup env.cleanup g⟩
      else
        -- open the /dev/memalloc file
        let g := { g with memalloc_dev_fd := env.open_memalloc }
        let t := t ++ [Syscall.open Device.memalloc env.open_memalloc]
        if g.memalloc_dev_fd = -1 then ⟨-1, g, t ++ dma_cleanup env.cleanup g⟩
        else
          -- reserve the tx buffer
          let arg := { env.stack with buffer_size := size }
          let status := env.reserve_tx.status
          let t := t ++ [Syscall.ioctl g.memalloc_dev_fd MemallocCmd.RESERVE arg
            env.reserve_tx.arg status]
          let arg := env.reserve_tx.arg
          if status ≠ 0 then ⟨status, g, t⟩
          else
            let g := { g with tx_buffer_id := arg.buffer_id }
            let g := { g with tx_phy_addr := toUInt32 arg.phys_addr }
            if g.tx_buffer_id < 0 ∨ status < 0 then ⟨-1, g, t⟩
            else
              let status := env.getphys_tx.status
              let t := t ++ [Syscall.ioctl g.memalloc_dev_fd MemallocCmd.GET_PHYSICAL arg
                env.getphys_tx.arg status]
              let arg := env.getphys_tx.arg
              if status ≠ 0 then ⟨status, g, t⟩
              else
                let g := { g with tx_phy_addr := toUInt32 arg.phys_addr }
                -- activate the buffer just created
                let status := env.activate_tx.status
                let t := t ++ [Syscall.ioctl g.memalloc_dev_fd MemallocCmd.ACTIVATE_BUFFER arg
                  env.activate_tx.arg status]
                let arg := env.activate_tx.arg
                if status ≠ 0 then ⟨status, g, t⟩
                else
                  -- mmap it and record its virtual address
                  let g := { g with txbase := env.mmap_tx }
                  let t := t ++ [Syscall.mmap size g.memalloc_dev_fd 0 env.mmap_tx]
                  if g.txbase = NULL then ⟨-1, g, t⟩
                  else
                    -- the same for the rx buffer
                    let status := env.reserve_rx.status
                    let t := t ++ [Syscall.ioctl g.memalloc_dev_fd MemallocCmd.RESERVE arg
                      env.reserve_rx.arg status]
                    let arg := env.reserve_rx.arg
                    if status ≠ 0 then ⟨status, g, t⟩
                    else
                      let g := { g with rx_buffer_id := arg.buffer_id }
                      let status := env.getphys_rx.status
                      let t := t ++ [Syscall.ioctl g.memalloc_dev_fd MemallocCmd.GET_PHYSICAL
                        arg env.getphys_rx.arg status]
                      let arg := env.getphys_rx.arg
                      if status ≠ 0 then ⟨status, g, t⟩
                      else
                        let g := { g with rx_phy_addr := toUInt32 arg.phys_addr }
                        let status := env.activate_rx.status
                        let t := t ++ [Syscall.ioctl g.memalloc_dev_fd
                          MemallocCmd.ACTIVATE_BUFFER arg env.activate_rx.arg status]
                        if status ≠ 0 then ⟨status, g, t⟩
                        else if g.rx_buffer_id < 0 ∨ status < 0 then ⟨-1, g, t⟩
                        else
                          let g := { g with rxbase := env.mmap_rx }
                          let t := t ++ [Syscall.mmap size g.memalloc_dev_fd 0 env.mmap_rx]
                          if g.rxbase = NULL then ⟨-1, g, t⟩
                          else ⟨0, g, t⟩

/-- The six values returned by the `ioctl` calls of `dma_init`, in program order. -/
def InitEnv.ioctlStatuses (env : InitEnv) : List Int :=
  [env.reserve_tx.status, env.getphys_tx.status, env.activate_tx.status,
   env.reserve_rx.status, env.getphys_rx.status, env.activate_rx.status]

/-! ## Operating-system resources -/

/-- The resources a process holds: open file descriptors, base addresses of mapped regions
and reserved memalloc buffers. -/
structure Resources where
  fds : List Int
  maps : List Nat
  bufs : List Int
  deriving DecidableEq, Repr

/-- The effect of one system call on the resources held.  A successful `open` adds its
descriptor and `close` removes it; a successful `mmap` adds a region, which stays mapped
until `munmap` (closing the descriptor does not unmap it); a successful reserve request adds
a buffer and a successful release request removes it. -/
def Resources.step (r : Resources) : Syscall → Resources
  | Syscall.open _ ret => if ret = -1 then r else { r with fds := ret :: r.fds }
  | Syscall.mmap _ _ _ ret => if ret = MAP_FAILED then r else { r with maps := ret :: r.maps }
  | Syscall.ioctl _ MemallocCmd.RESERVE _ out status =>
    if status = 0 then { r with bufs := out.buffer_id :: r.bufs } else r
  | Syscall.ioctl _ MemallocCmd.RELEASE arg _ status =>
    if status = 0 then { r with bufs := r.bufs.filter (fun b => b ≠ arg.buffer_id) } else r
  | Syscall.ioctl _ _ _ _ _ => r
  | Syscall.close fd => { r with fds := r.fds.filter (fun f => f ≠ fd) }
  | Syscall.munmap addr _ => { r with maps := r.maps.filter (fun a => a ≠ addr) }

/-- The resources held after a sequence of system calls. -/
def Resources.run (r : Resources) (t : List Syscall) : Resources :=
  t.foldl Resources.step r

/-- No resource held. -/
def Resources.none : Resources := { fds := [], maps := [], bufs := [] }

/-! ## Concrete environments -/

/-- An environment in which every call succeeds: descriptors 3 and 4, the register block
mapped at `0x10000`, buffer 0 mapped at `0x20000` and buffer 1 mapped at `0x30000`. -/
def okEnv : InitEnv :=
  { stack := ⟨0, 0, 0⟩
    open_mem := 3
    mmap_cfg := 0x10000
    open_memalloc := 4
    reserve_tx := ⟨0, ⟨64, 0, 0x1000000⟩⟩
    getphys_tx := ⟨0, ⟨64, 0, 0x1000000⟩⟩
    activate_tx := ⟨0, ⟨64, 0, 0x1000000⟩⟩
    mmap_tx := 0x20000
    reserve_rx := ⟨0, ⟨64, 1, 0x1001000⟩⟩
    getphys_rx := ⟨0, ⟨64, 1, 0x1001000⟩⟩
    activate_rx := ⟨0, ⟨64, 1, 0x1001000⟩⟩
    mmap_rx := 0x30000
    cleanup := ⟨⟨0, 0, 0⟩, ⟨0, ⟨0, 0, 0⟩⟩, ⟨0, ⟨0, 1, 0⟩⟩⟩ }

/-- As `okEnv`, but the request that reserves the tx buffer returns 5. -/
def reserveFiveEnv : InitEnv :=
  { okEnv with reserve_tx := ⟨5, ⟨64, 0, 0⟩⟩ }

/-- As `okEnv`, but mapping the DMA control registers fails. -/
def cfgMapFailedEnv : InitEnv :=
  { okEnv with mmap_cfg := MAP_FAILED }

/-- As `okEnv`, but mapping the tx buffer fails. -/
def txMapFailedEnv : InitEnv :=
  { okEnv with mmap_tx := MAP_FAILED }

/-- As `okEnv`, but mapping the rx buffer fails. -/
def rxMapFailedEnv : InitEnv :=
  { okEnv with mmap_rx := MAP_FAILED }

end DmaDriver

namespace BookExamples

/-! ## Integer conversions and counting loops -/

/-- Conversion to `unsigned int` / `u32`: the value modulo `2^32`. -/
def toU32 (x : Int) : Nat := (x % 2 ^ 32).toNat

/-- Conversion to `int`: the value wrapped into `[-2^31, 2^31)`. -/
def toI32 (x : Int) : Int := (x + 2 ^ 31) % 2 ^ 32 - 2 ^ 31

/-- Conversion to `short`: the value wrapped into `[-2^15, 2^15)`. -/
def toI16 (x : Int) : Int := (x + 2 ^ 15) % 2 ^ 16 - 2 ^ 15

/-- The loop `for (int i = lo; i < lo + n; i++) s = body(i, s);` run from the state `s`. -/
@[irreducible]
def forRange {σ : Type} (body : Nat → σ → σ) : Nat → Nat → σ → σ
  | _, 0, s => s
  | lo, n + 1, s => forRange body (lo + 1) n (body lo s)

/-- The two's-complement value of the 16 bits `lo + 15 .. lo` of the word `w`: bit `lo + 15`
weighs `-2^15`, the 15 bits below it are read as an unsigned number. -/
def field16 (w lo : Nat) : Int :=
  (((w >>> lo) % 2 ^ 15 : Nat) : Int) - (if w.testBit (lo + 15) then 2 ^ 15 else 0)

/-! ## The max-value test (`axi_bram/maxval_int/maxval_int_test.c`) -/

/-- The local `randomtests` of `main`. -/
def randomtests : Nat := 1000

/-- The local `feed` of `main`. -/
def feed : Nat := 0x8c000001

/-- The LFSR update `v = (v&1) ? (v>>1)^feed : v>>1;` on an `unsigned int`. -/
def lfsr_step (v : Nat) : Nat :=
  if v &&& 1 ≠ 0 then (v >>> 1) ^^^ feed else v >>> 1

/-- The variables of the pseudorandom tests: `v`, `largest`, `errors`, the contents of the
BRAM, and (instrumentation) the values stored to the BRAM so far, oldest first. -/
structure MaxvalState where
  v : Nat
  largest : Nat
  errors : Int
  bram : Nat → Nat
  written : List Nat

/-- The body of the inner loop: update the LFSR, store the number in `bram[i]`, keep track of
the largest. -/
def gen_body (i : Nat) (s : MaxvalState) : MaxvalState :=
  let v := lfsr_step s.v
  { v := v
    largest := if v > s.largest then v else s.largest
    errors := s.errors
    bram := fun j => if j = i then v else s.bram j
    written := s.written ++ [v] }

/-- The inner loop `for (int i=0; i<2048; i++)`, entered after `largest = 0`. -/
def gen_inputs (s : MaxvalState) : MaxvalState :=
  forRange gen_body 0 2048 { s with largest := 0 }

/-- The body of the outer loop, test number `test`.  The hardware run between the start and
the done signal is `hw test`, a function from the BRAM contents before to the contents
after; both polling loops are taken to end. -/
def test_body (hw : Nat → (Nat → Nat) → (Nat → Nat)) (test : Nat) (s : MaxvalState) :
    MaxvalState :=
  let g := gen_inputs s
  let bram := hw test g.bram
  { g with bram := bram, errors := if bram 0 ≠ g.largest then g.errors + 1 else g.errors }

/-- The pseudorandom tests of `main`: `v = 12347`, `errors = 0`, then `randomtests` tests. -/
def random_tests (hw : Nat → (Nat → Nat) → (Nat → Nat)) (bram : Nat → Nat) : MaxvalState :=
  forRange (test_body hw) 0 randomtests
    { v := 12347, largest := 0, errors := 0, bram := bram, written := [] }

/-! ## Error-counting loops -/

/-- The loop `for (i = lo; i < lo + n; i++) if (bad(i)) errors++;` entered with the given
value of `errors`: the value of `errors` on exit. -/
def count_errors (bad : Nat → Bool) (lo n : Nat) (errors : Int) : Int :=
  forRange (fun i e => if bad i = true then e + 1 else e) lo n errors

/-! ## The BRAM reverse test (`axi_bram/rev_bram/rev_bram_test.c`) -/

/-- The input setup loop `for (int i=0; i<2048; i++) bram[i] = i+1;`. -/
def rev_setup (bram : Nat → Nat) : Nat → Nat :=
  forRange (fun i b => fun j => if j = i then toU32 ((i : Int) + 1) else b j) 0 2048 bram

/-- The value `2047-i+1` the check compares `bram[2048+i]` with, converted to
`unsigned int` for the comparison. -/
def rev_expected (i : Nat) : Nat := toU32 (2047 - (i : Int) + 1)

/-- The check loop of the reverse test, run on the BRAM contents left by the hardware: the
final value of `errors`. -/
def rev_check (bram : Nat → Nat) : Int :=
  count_errors (fun i => decide (bram (2048 + i) ≠ rev_expected i)) 0 2048 0

/-! ## The stream multiplier test (`streammult/streammult_test.c`) -/

/-- The declaration `short a = 100+i;`. -/
def sm_a (i : Nat) : Int := toI16 (100 + (i : Int))

/-- The declaration `short b = -500-i;`. -/
def sm_b (i : Nat) : Int := toI16 (-500 - (i : Int))

/-- The expression `a<<16 | (b&0xffff)` for two `short` operands, as a 32-bit pattern; the
operands are promoted to `int` and the shift is taken modulo `2^32`. -/
def pack_word (a b : Int) : Nat :=
  ((toU32 a <<< 16) % 2 ^ 32) ||| (toU32 b &&& 0xffff)

/-- The element `TxBuff[i]` after the setup loop. -/
def sm_TxBuff (i : Nat) : Int := toI32 (pack_word (sm_a i) (sm_b i))

/-- The element `expected[i] = (int)a * (int)b` after the setup loop, the product wrapped
to an `int`. -/
def sm_expected (i : Nat) : Int := toI32 (sm_a i * sm_b i)

/-! ## `checkCorrectness` (`axi_bram/maxval_int/maxval_int_test_dma.c`) -/

/-- What a call of `checkCorrectness` leaves behind: the value returned, the value of `i`
on return (instrumentation) and the memory. -/
structure CheckResult where
  ret : Int
  stop : Nat
  mem : Nat → Int

/-- The loop of `checkCorrectness` with `n` iterations left and the loop variable at `i`;
`src` and `dst` are the word addresses of the two arrays in the memory `mem`. -/
def checkCorrectness_loop (src dst : Nat) (mem : Nat → Int) : Nat → Nat → CheckResult
  | 0, i => ⟨1, i, mem⟩
  | n + 1, i =>
    if mem (src + i) ≠ mem (dst + i) then ⟨0, i, mem⟩
    else checkCorrectness_loop src dst mem n (i + 1)

/-- The function `checkCorrectness(size, src, dst)`. -/
def checkCorrectness (size : Int) (src dst : Nat) (mem : Nat → Int) : CheckResult :=
  checkCorrectness_loop src dst mem size.toNat 0

/-! ## The `mem_init` programs (`createbin.c`, `memtest.c`, `checkbin.c`) -/

/-- The local `numInts = (1<<21)` of `createbin` and `memtest`. -/
def numInts : Nat := 1 <<< 21

/-- The content of the array `myData`, hence of the file `mydata.bin`, written by
`createbin`; `heap` is the content of the allocated block before the loop. -/
def createbin (heap : Nat → Int) : Nat → Int :=
  forRange (fun i d => fun j => if j = i then toI32 ((i : Int) + 9000) else d j) 0 numInts heap

/-- The macro `RESERVED_MEM`. -/
def RESERVED_MEM : Nat := 0x00100000

/-- The pointer `inputLocation`, as a word address. -/
def inputLocation : Nat := RESERVED_MEM / 4

/-- The pointer `outputLocation = (int*)(RESERVED_MEM + 4*numInts)`, as a word address. -/
def outputLocation : Nat := (RESERVED_MEM + 4 * numInts) / 4

/-- What `memtest` leaves behind: the two error counts it prints and the memory. -/
structure MemtestResult where
  inputErrors : Int
  outputErrors : Int
  mem : Nat → Int

/-- The store loop of `memtest`, `outputLocation[i] = inputLocation[i] + 27;` for
`i < numInts`, run on the word-addressed memory `mem`: the memory after the loop. -/
def memtest_store (mem : Nat → Int) : Nat → Int :=
  forRange
    (fun i m => fun a => if a = outputLocation + i then toI32 (m (inputLocation + i) + 27)
      else m a) 0 numInts mem

/-- The program `memtest` run on the word-addressed memory `mem`: the input check, the store
loop and the output check. -/
def memtest (mem : Nat → Int) : MemtestResult :=
  { inputErrors := count_errors
      (fun i => decide (mem (inputLocation + i) ≠ toI32 (9000 + (i : Int)))) 0 numInts 0
    outputErrors := count_errors
      (fun i => decide (memtest_store mem (outputLocation + i) ≠ toI32 (9027 + (i : Int))))
      0 numInts 0
    mem := memtest_store mem }

/-- The memory dump taken after `memtest`: `2*numInts` integers starting from
`inputLocation`. -/
def dump (mem : Nat → Int) : Nat → Int := fun i => mem (inputLocation + i)

/-- The local `numInts = (1<<22)` of `checkbin`. -/
def checkbin_numInts : Nat := 1 <<< 22

/-- The first loop of `checkbin`, over `i < numInts/2`: the value of `errors` after it. -/
def checkbin_first (myData : Nat → Int) : Int :=
  count_errors
    (fun i => decide (myData i ≠ toI32 ((i : Int) + 9000))) 0 (checkbin_numInts / 2) 0

/-- The number of errors `checkbin` reports for the file content `myData`: the second
loop, over `numInts/2 <= i < numInts`, continues the count of the first. -/
def checkbin (myData : Nat → Int) : Int :=
  count_errors
    (fun i => decide (myData i ≠ toI32 ((i : Int) - (checkbin_numInts / 2 : Nat) + 9027)))
    (checkbin_numInts / 2) (checkbin_numInts - checkbin_numInts / 2) (checkbin_first myData)

/-! ## Transfer sizes of the DMA examples -/

/-- The macro `TXSIZE` of `dma_loopback/dma_loopback.c`. -/
def loopback_TXSIZE : Nat := 4088

/-- The macro `TXSIZE` of `dma_cordic/dma_cordic.c`. -/
def cordic_TXSIZE : Nat := 8

/-- The macro `TXSIZE` of `streammult/streammult_test.c`. -/
def streammult_TXSIZE : Nat := 2048

/-! ## The CORDIC test (`dma_cordic/dma_cordic.c`) -/

/-- The contents of `TxBuff` after its initialisation; the hexadecimal constants are
converted to `int`. -/
def cordic_TxBuff : List Int :=
  [toI32 0x00000000, toI32 0x20000000, toI32 0xe0000000, 843314857, -843314857,
   421657428, -421657428, 281104952]

/-- The declaration `u32 readValTmp = (u32)RxBuff[Index];`. -/
def readValTmp (rx : Int) : Nat := toU32 rx

/-- The declaration `short outCos = (short)(readValTmp&0xffff);`. -/
def outCos (readValTmp : Nat) : Int := toI16 ((readValTmp &&& 0xffff : Nat) : Int)

/-- The declaration `short outSin = (short)(readValTmp>>16);`. -/
def outSin (readValTmp : Nat) : Int := toI16 ((readValTmp >>> 16 : Nat) : Int)

/-- The 32-bit word whose upper half is the 16-bit pattern of `s` and whose lower half is
the 16-bit pattern of `c`. -/
def word_of_halves (s c : Int) : Nat := (s % 2 ^ 16).toNat * 2 ^ 16 + (c % 2 ^ 16).toNat

end BookExamples

namespace DmaDriver

/-! ## Shared lemmas -/

theorem land_three (size : Int) (h : 4 ≤ size) : Int.land size 0x3 = size % 4 := by
  obtain ⟨n, rfl⟩ := Int.eq_ofNat_of_zero_le (by omega : 0 ≤ size)
  show ((n &&& 3 : Nat) : Int) = (n : Int) % 4
  have := Nat.and_pow_two_sub_one_eq_mod n 2
  norm_num at this
  rw [this]
  norm_cast

theorem check_size_eq (size : Int) :
    check_size size = if 4 ≤ size ∧ size < 2 ^ 14 ∧ size % 4 = 0 then 0 else -1 := by
  unfold check_size
  by_cases h4 : size < 4
  · rw [if_pos h4, if_neg (by omega)]
  · rw [if_neg h4, land_three size (by omega)]
    have hs : ((1 <<< MAX_DMA_LEN_BITS : Nat) : Int) = 2 ^ 14 := by
      simp [MAX_DMA_LEN_BITS, Nat.shiftLeft_eq]
    rw [hs]
    by_cases hm : size % 4 = 0
    · by_cases hb : size ≥ 2 ^ 14
      · simp [hm, hb]; omega
      · simp [hm, hb]; omega
    · simp [hm]

theorem check_size_legal (size : Int) (h : check_size size = 0) :
    4 ≤ size ∧ size < 2 ^ 14 ∧ size % 4 = 0 := by
  rw [check_size_eq] at h
  by_contra hc
  rw [if_neg hc] at h
  omega

theorem wordOfInt_legal (size : Int) (h : check_size size = 0) :
    wordOfInt size % 2 ^ 32 = size.toNat ∧ ((size.toNat : Nat) : Int) = size := by
  obtain ⟨h4, hlt, _⟩ := check_size_legal size h
  unfold wordOfInt
  omega

theorem check_size_illegal (size : Int) (h : check_size size ≠ 0) : check_size size = -1 := by
  rw [check_size_eq] at h ⊢
  split_ifs with hc
  · rw [if_pos hc] at h; exact absurd rfl h
  · rfl

/-! ## Lemmas on the polling loop -/

theorem ReadsOnly.refl (rf : RegFile) : ReadsOnly rf rf :=
  ⟨rfl, [], by simp, by simp⟩

theorem ReadsOnly.trans {a b c : RegFile} (h1 : ReadsOnly a b) (h2 : ReadsOnly b c) :
    ReadsOnly a c := by
  obtain ⟨hw1, r1, hl1, hr1⟩ := h1
  obtain ⟨hw2, r2, hl2, hr2⟩ := h2
  refine ⟨hw2.trans hw1, r1 ++ r2, by rw [hl2, hl1, List.append_assoc], ?_⟩
  intro x hx
  rcases List.mem_append.1 hx with h | h
  · exact hr1 x h
  · exact hr2 x h

theorem get_dma_reg_readsOnly (hw : Nat → Nat → Nat) (offset : Nat) (rf : RegFile) :
    ReadsOnly rf (get_dma_reg hw offset rf).2 :=
  ⟨rfl, [Access.read (offset / 4) (hw rf.log.length (offset / 4) % 2 ^ 32)], rfl, by
    simp [Access.isRead]⟩

theorem busy_cond_readsOnly (hw : Nat → Nat → Nat) (rf : RegFile) :
    ReadsOnly rf (busy_cond hw rf).2 := by
  unfold busy_cond
  by_cases h1 : ((get_dma_reg hw S2MM_STATUS_REG rf).1 &&& DMA_IDLE) = 0
  · simp only [if_pos h1]
    exact get_dma_reg_readsOnly hw _ rf
  · simp only [if_neg h1]
    exact (get_dma_reg_readsOnly hw _ rf).trans (get_dma_reg_readsOnly hw _ _)

theorem pollState_readsOnly (hw : Nat → Nat → Nat) (rf : RegFile) (k : Nat) :
    ReadsOnly rf (pollState hw rf k) := by
  induction k with
  | zero => exact ReadsOnly.refl rf
  | succ k ih => exact ih.trans (busy_cond_readsOnly hw _)

/-- When the loop condition is false both status registers were read, in the order `S2MM`,
`MM2S`, and both values have the idle bit set. -/
theorem busy_cond_false (hw : Nat → Nat → Nat) (rf : RegFile)
    (h : (busy_cond hw rf).1 = false) :
    ∃ v1 v2, (busy_cond hw rf).2.log = rf.log ++ [Access.read (S2MM_STATUS_REG / 4) v1,
        Access.read (MM2S_STATUS_REG / 4) v2]
      ∧ v1 = hw rf.log.length (S2MM_STATUS_REG / 4) % 2 ^ 32
      ∧ v2 = hw (rf.log.length + 1) (MM2S_STATUS_REG / 4) % 2 ^ 32
      ∧ v1 &&& DMA_IDLE ≠ 0 ∧ v2 &&& DMA_IDLE ≠ 0 := by
  unfold busy_cond at h ⊢
  by_cases h1 : ((get_dma_reg hw S2MM_STATUS_REG rf).1 &&& DMA_IDLE) = 0
  · rw [if_pos h1] at h
    exact absurd h (by simp)
  · rw [if_neg h1] at h ⊢
    have h2 : ((get_dma_reg hw MM2S_STATUS_REG (get_dma_reg hw S2MM_STATUS_REG rf).2).1
        &&& DMA_IDLE) ≠ 0 := by
      intro hc
      simp [hc] at h
    refine ⟨_, _, ?_, rfl, ?_, h1, h2⟩
    · simp [get_dma_reg]
    · simp [get_dma_reg]

/-- The loop condition in terms of the values the hardware returns: it holds when the
`S2MM` status read has the idle bit clear, or else the `MM2S` status read has it clear. -/
theorem busy_cond_iff (hw : Nat → Nat → Nat) (rf : RegFile) :
    (busy_cond hw rf).1 = true
      ↔ ((hw rf.log.length (S2MM_STATUS_REG / 4) % 2 ^ 32) &&& DMA_IDLE = 0
          ∨ (hw (rf.log.length + 1) (MM2S_STATUS_REG / 4) % 2 ^ 32) &&& DMA_IDLE = 0) := by
  unfold busy_cond
  by_cases h1 : ((get_dma_reg hw S2MM_STATUS_REG rf).1 &&& DMA_IDLE) = 0
  · simp only [if_pos h1]
    constructor
    · intro _
      exact Or.inl h1
    · intro _
      first
        | rfl
        | trivial
  · simp only [if_neg h1]
    have hlen : (get_dma_reg hw S2MM_STATUS_REG rf).2.log.length = rf.log.length + 1 := by
      simp [get_dma_reg]
    constructor
    · intro h
      right
      have h2 := of_decide_eq_true h
      unfold get_dma_reg at h2 hlen
      simp only at h2 hlen
      rw [hlen] at h2
      exact h2
    · rintro (h | h)
      · exact absurd h h1
      · apply decide_eq_true
        unfold get_dma_reg at hlen ⊢
        simp only at hlen ⊢
        rw [hlen]
        exact h

/-- The number of reads one evaluation of the loop condition makes. -/
theorem busy_cond_length (hw : Nat → Nat → Nat) (rf : RegFile) :
    (busy_cond hw rf).2.log.length
      = if (hw rf.log.length (S2MM_STATUS_REG / 4) % 2 ^ 32) &&& DMA_IDLE = 0
        then rf.log.length + 1 else rf.log.length + 2 := by
  unfold busy_cond
  by_cases h1 : ((get_dma_reg hw S2MM_STATUS_REG rf).1 &&& DMA_IDLE) = 0
  · have h1' : (hw rf.log.length (S2MM_STATUS_REG / 4) % 2 ^ 32) &&& DMA_IDLE = 0 := h1
    simp only [if_pos h1]
    rw [if_pos h1']
    simp [get_dma_reg]
  · have h1' : ¬ (hw rf.log.length (S2MM_STATUS_REG / 4) % 2 ^ 32) &&& DMA_IDLE = 0 := h1
    simp only [if_neg h1]
    rw [if_neg h1']
    simp [get_dma_reg]

/-- The log at the start of evaluation `k` has the length `evalStart` gives. -/
theorem pollState_length (hw : Nat → Nat → Nat) (rf : RegFile) (k : Nat) :
    (pollState hw rf k).log.length = evalStart hw rf.log.length k := by
  induction k with
  | zero => rfl
  | succ k ih =>
    show (busy_cond hw (pollState hw rf k)).2.log.length = _
    rw [busy_cond_length, ih]
    rfl

/-- The busy condition on evaluation `k` in terms of the values the hardware returns. -/
theorem busyAt_iff (hw : Nat → Nat → Nat) (rf : RegFile) (k : Nat) :
    busyAt hw rf k = true
      ↔ ((hw (evalStart hw rf.log.length k) (S2MM_STATUS_REG / 4) % 2 ^ 32) &&& DMA_IDLE = 0
          ∨ (hw (evalStart hw rf.log.length k + 1) (MM2S_STATUS_REG / 4) % 2 ^ 32)
              &&& DMA_IDLE = 0) := by
  unfold busyAt
  rw [busy_cond_iff, pollState_length]

theorem pollState_shift (hw : Nat → Nat → Nat) (rf : RegFile) (k : Nat) :
    pollState hw rf (k + 1) = pollState hw (busy_cond hw rf).2 k := by
  induction k with
  | zero => rfl
  | succ k ih =>
    show (busy_cond hw (pollState hw rf (k + 1))).2 = _
    rw [ih]
    rfl

theorem busyAt_shift (hw : Nat → Nat → Nat) (rf : RegFile) (k : Nat) :
    busyAt hw rf (k + 1) = busyAt hw (busy_cond hw rf).2 k := by
  unfold busyAt
  rw [pollState_shift]

theorem dma_sync_loop_succ (hw : Nat → Nat → Nat) (fuel : Nat) (its : Int) (evals : Nat)
    (rf : RegFile) :
    dma_sync_loop hw (fuel + 1) its evals rf =
      if (busy_cond hw rf).1 = true then
        if its + 1 = 1000000 then
          some ⟨-1, evals + 1, (get_dma_reg hw S2MM_STATUS_REG
            (get_dma_reg hw MM2S_STATUS_REG (busy_cond hw rf).2).2).2⟩
        else dma_sync_loop hw fuel (its + 1) (evals + 1) (busy_cond hw rf).2
      else some ⟨0, evals + 1, (busy_cond hw rf).2⟩ := rfl

/-- The loop entered with `its + (n + 1) = 1000000` returns with any fuel of at least
`n + 1`; evaluation `j` is the last one, all earlier ones found the DMA busy, and the loop
either leaves with 0 at a false condition or with -1 at evaluation `n`. -/
theorem dma_sync_loop_spec (hw : Nat → Nat → Nat) :
    ∀ (n : Nat) (its : Int) (evals : Nat) (rf : RegFile), its + ((n : Int) + 1) = 1000000 →
    ∃ r j, (∀ extra, dma_sync_loop hw (n + 1 + extra) its evals rf = some r)
      ∧ r.evals = evals + j + 1 ∧ j ≤ n
      ∧ (∀ k, k < j → busyAt hw rf k = true)
      ∧ ((r.ret = 0 ∧ busyAt hw rf j = false
            ∧ r.rf = (busy_cond hw (pollState hw rf j)).2)
         ∨ (r.ret = -1 ∧ j = n ∧ busyAt hw rf j = true
            ∧ r.rf = (get_dma_reg hw S2MM_STATUS_REG (get_dma_reg hw MM2S_STATUS_REG
                (busy_cond hw (pollState hw rf j)).2).2).2)) := by
  intro n
  induction n with
  | zero =>
    intro its evals rf hits
    have h1 : its + 1 = 1000000 := by simpa using hits
    by_cases hb : (busy_cond hw rf).1 = true
    · refine ⟨⟨-1, evals + 1, (get_dma_reg hw S2MM_STATUS_REG
        (get_dma_reg hw MM2S_STATUS_REG (busy_cond hw rf).2).2).2⟩, 0, ?_, rfl, le_refl _,
        ?_, Or.inr ⟨rfl, rfl, hb, rfl⟩⟩
      · intro extra
        rw [show 0 + 1 + extra = extra + 1 by omega, dma_sync_loop_succ, if_pos hb, if_pos h1]
      · intro k hk
        exact absurd hk (Nat.not_lt_zero k)
    · refine ⟨⟨0, evals + 1, (busy_cond hw rf).2⟩, 0, ?_, rfl, le_refl _, ?_,
        Or.inl ⟨rfl, by simpa [busyAt, pollState] using hb, rfl⟩⟩
      · intro extra
        rw [show 0 + 1 + extra = extra + 1 by omega, dma_sync_loop_succ, if_neg hb]
      · intro k hk
        exact absurd hk (Nat.not_lt_zero k)
  | succ n ih =>
    intro its evals rf hits
    have h1 : ¬ (its + 1 = 1000000) := by push_cast at hits; omega
    by_cases hb : (busy_cond hw rf).1 = true
    · obtain ⟨r, j, hr, hev, hj, hbusy, hend⟩ :=
        ih (its + 1) (evals + 1) (busy_cond hw rf).2 (by push_cast at hits; omega)
      refine ⟨r, j + 1, ?_, by omega, by omega, ?_, ?_⟩
      · intro extra
        rw [show n + 1 + 1 + extra = (n + 1 + extra) + 1 by omega, dma_sync_loop_succ,
          if_pos hb, if_neg h1]
        exact hr extra
      · intro k hk
        cases k with
        | zero => exact hb
        | succ k =>
          rw [busyAt_shift]
          exact hbusy k (by omega)
      · rw [busyAt_shift, pollState_shift]
        rcases hend with ⟨h0, hf, hrf⟩ | ⟨hm, hjn, ht, hrf⟩
        · exact Or.inl ⟨h0, hf, hrf⟩
        · exact Or.inr ⟨hm, by omega, ht, hrf⟩
    · refine ⟨⟨0, evals + 1, (busy_cond hw rf).2⟩, 0, ?_, rfl, Nat.zero_le _, ?_,
        Or.inl ⟨rfl, by simpa [busyAt, pollState] using hb, rfl⟩⟩
      · intro extra
        rw [show n + 1 + 1 + extra = (n + 1 + extra) + 1 by omega, dma_sync_loop_succ,
          if_neg hb]
      · intro k hk
        exact absurd hk (Nat.not_lt_zero k)

/-- Whatever the fuel and the initial `its`, a loop that leaves with 0 does so at a false
condition: evaluation `j` is the last one and the register file is the one it left. -/
theorem dma_sync_loop_zero (hw : Nat → Nat → Nat) :
    ∀ (fuel : Nat) (its : Int) (evals : Nat) (rf : RegFile) (r : SyncResult),
    dma_sync_loop hw fuel its evals rf = some r → r.ret = 0 →
    ∃ j, r.evals = evals + j + 1 ∧ busyAt hw rf j = false
      ∧ r.rf = (busy_cond hw (pollState hw rf j)).2 := by
  intro fuel
  induction fuel with
  | zero =>
    intro its evals rf r h
    exact absurd h (by simp [dma_sync_loop])
  | succ fuel ih =>
    intro its evals rf r h h0
    rw [dma_sync_loop_succ] at h
    by_cases hb : (busy_cond hw rf).1 = true
    · rw [if_pos hb] at h
      by_cases h1 : its + 1 = 1000000
      · rw [if_pos h1] at h
        have hr := Option.some.inj h
        rw [← hr] at h0
        exact absurd h0 (by simp)
      · rw [if_neg h1] at h
        obtain ⟨j, hev, hf, hrf⟩ := ih _ _ _ r h h0
        refine ⟨j + 1, by omega, ?_, ?_⟩
        · rw [busyAt_shift]; exact hf
        · rw [pollState_shift]; exact hrf
    · rw [if_neg hb] at h
      have hr := Option.some.inj h
      subst hr
      exact ⟨0, rfl, by simpa [busyAt, pollState] using hb, rfl⟩

theorem ite_ret_cases (P : Int → Prop) (c : Prop) [Decidable c] (a b : InitResult)
    (ha : c → P a.ret) (hb : ¬ c → P b.ret) : P (if c then a else b).ret := by
  by_cases h : c
  · rw [if_pos h]; exact ha h
  · rw [if_neg h]; exact hb h

theorem mem_ioctlStatuses (env : InitEnv) :
    env.reserve_tx.status ∈ env.ioctlStatuses ∧ env.getphys_tx.status ∈ env.ioctlStatuses
    ∧ env.activate_tx.status ∈ env.ioctlStatuses ∧ env.reserve_rx.status ∈ env.ioctlStatuses
    ∧ env.getphys_rx.status ∈ env.ioctlStatuses
    ∧ env.activate_rx.status ∈ env.ioctlStatuses := by
  simp [InitEnv.ioctlStatuses]

/-- Case analysis on the value returned by `dma_init`: it is 0, -1, or a non-zero value
returned by one of the `ioctl` calls. -/
theorem dma_init_ret_cases (P : Int → Prop) (env : InitEnv) (size : Int) (g : Globals)
    (h0 : P 0) (hm : P (-1)) (hs : ∀ s, s ∈ env.ioctlStatuses → s ≠ 0 → P s) :
    P (dma_init env size g).ret := by
  obtain ⟨m1, m2, m3, m4, m5, m6⟩ := mem_ioctlStatuses env
  by_cases hc : check_size size = 0
  · unfold dma_init
    lift_lets
    intros
    refine ite_ret_cases P _ _ _ (fun h => absurd hc h) (fun _ => ?_)
    repeat' first
      | exact h0
      | exact hm
      | exact hs _ m1 (by assumption)
      | exact hs _ m2 (by assumption)
      | exact hs _ m3 (by assumption)
      | exact hs _ m4 (by assumption)
      | exact hs _ m5 (by assumption)
      | exact hs _ m6 (by assumption)
      | refine ite_ret_cases P _ _ _ (fun h => ?_) (fun h => ?_)
  · unfold dma_init
    rw [if_pos hc, check_size_illegal size hc]
    exact hm

/-! ## Return values of `dma_rx` and `dma_tx` -/

/-- C1: for every `size`, `dma_rx(size)` and `dma_tx(size)` return 0 when
`4 <= size < 2^14` and `size` is a multiple of 4, and -1 for every other size; these are
exactly the sizes `check_size` accepts. -/
theorem dma_rx_tx_return (g : Globals) (size : Int) (rf : RegFile) :
    (dma_rx g size rf).1 = (if 4 ≤ size ∧ size < 2 ^ 14 ∧ size % 4 = 0 then 0 else -1)
    ∧ (dma_tx g size rf).1 = (if 4 ≤ size ∧ size < 2 ^ 14 ∧ size % 4 = 0 then 0 else -1)
    ∧ (check_size size = 0 ↔ 4 ≤ size ∧ size < 2 ^ MAX_DMA_LEN_BITS ∧ size % 4 = 0)
    ∧ (dma_rx g 0 rf).1 = -1 ∧ (dma_tx g (-8) rf).1 = -1 ∧ (dma_rx g 6 rf).1 = -1
    ∧ (dma_tx g 16384 rf).1 = -1 ∧ (dma_rx g 16380 rf).1 = 0 ∧ (dma_tx g 4 rf).1 = 0 := by
  have hrx : ∀ s : Int, (dma_rx g s rf).1
      = (if 4 ≤ s ∧ s < 2 ^ 14 ∧ s % 4 = 0 then 0 else -1) := by
    intro s
    rw [← check_size_eq]
    unfold dma_rx
    by_cases h : check_size s = 0
    · simp [h]
    · simp [h]
  have htx : ∀ s : Int, (dma_tx g s rf).1
      = (if 4 ≤ s ∧ s < 2 ^ 14 ∧ s % 4 = 0 then 0 else -1) := by
    intro s
    rw [← check_size_eq]
    unfold dma_tx
    by_cases h : check_size s = 0
    · simp [h]
    · simp [h]
  refine ⟨hrx size, htx size, ?_, ?_, ?_, ?_, ?_, ?_, ?_⟩
  · rw [check_size_eq]
    show _ ↔ 4 ≤ size ∧ size < 2 ^ 14 ∧ size % 4 = 0
    by_cases hc : 4 ≤ size ∧ size < 2 ^ 14 ∧ size % 4 = 0
    · rw [if_pos hc]
      exact ⟨fun _ => hc, fun _ => rfl⟩
    · rw [if_neg hc]
      exact ⟨fun h => absurd h (by decide), fun h => absurd h hc⟩
  · rw [hrx]; decide
  · rw [htx]; decide
  · rw [hrx]; decide
  · rw [htx]; decide
  · rw [hrx]; decide
  · rw [htx]; decide

/-! ## Register effects of `dma_rx`, `dma_tx` and `dma_reset` -/

/-- C2: for a legal `size`, `dma_rx(size)` returns 0 and leaves `DMA_START` in word 12
(`S2MM_CNTL`), `rx_phy_addr` in word 18 (`S2MM_DEST_ADDR`) and `size` in word 22
(`S2MM_LEN`); it makes four register writes, the last of them to the length register, and
every other word keeps its value. -/
theorem dma_rx_registers (g : Globals) (size : Int) (rf : RegFile)
    (hsize : check_size size = 0) (haddr : g.rx_phy_addr < 2 ^ 32) :
    S2MM_CNTL_REG / 4 = 12 ∧ S2MM_DEST_ADDR_REG / 4 = 18 ∧ S2MM_LEN_REG / 4 = 22
    ∧ (dma_rx g size rf).1 = 0
    ∧ (dma_rx g size rf).2.word 12 = DMA_START
    ∧ (dma_rx g size rf).2.word 18 = g.rx_phy_addr
    ∧ (((dma_rx g size rf).2.word 22 : Nat) : Int) = size
    ∧ (dma_rx g size rf).2.log = rf.log ++ [Access.write 12 0, Access.write 18 g.rx_phy_addr,
        Access.write 12 1, Access.write 22 size.toNat]
    ∧ (dma_rx g size rf).2.log.getLast? = some (Access.write (S2MM_LEN_REG / 4) size.toNat)
    ∧ ∀ w, w ≠ 12 → w ≠ 18 → w ≠ 22 → (dma_rx g size rf).2.word w = rf.word w := by
  obtain ⟨hw1, hw2⟩ := wordOfInt_legal size hsize
  have ha : g.rx_phy_addr % 2 ^ 32 = g.rx_phy_addr := Nat.mod_eq_of_lt haddr
  have hrx : dma_rx g size rf =
      (0, { word := fun w => if w = 22 then size.toNat else if w = 12 then 1
                      else if w = 18 then g.rx_phy_addr else if w = 12 then 0 else rf.word w
            log := rf.log ++ [Access.write 12 0, Access.write 18 g.rx_phy_addr,
              Access.write 12 1, Access.write 22 size.toNat] }) := by
    unfold dma_rx
    rw [if_neg (by simp [hsize])]
    simp only [set_dma_reg, hw1, ha]
    simp [S2MM_CNTL_REG, S2MM_DEST_ADDR_REG, S2MM_LEN_REG, DMA_START]
  rw [hrx]
  refine ⟨by decide, by decide, by decide, rfl, rfl, rfl, hw2, rfl, ?_, ?_⟩
  · simp [S2MM_LEN_REG]
  · intro w h12 h18 h22
    simp [h12, h18, h22]

/-- Witness for C2: a 64-byte receive with `rx_phy_addr = 0x1000`. -/
theorem dma_rx_registers_witness :
    check_size 64 = 0 ∧ (dma_rx { Globals.initial with rx_phy_addr := 0x1000 } 64
      ⟨fun _ => 7, []⟩).2.word 22 = 64
    ∧ (dma_rx { Globals.initial with rx_phy_addr := 0x1000 } 64 ⟨fun _ => 7, []⟩).2.word 0 = 7 :=
  ⟨by decide, by
    have h := dma_rx_registers { Globals.initial with rx_phy_addr := 0x1000 } 64
      ⟨fun _ => 7, []⟩ (by decide) (by decide)
    exact_mod_cast h.2.2.2.2.2.2.1, by
    have h := dma_rx_registers { Globals.initial with rx_phy_addr := 0x1000 } 64
      ⟨fun _ => 7, []⟩ (by decide) (by decide)
    exact h.2.2.2.2.2.2.2.2.2 0 (by decide) (by decide) (by decide)⟩

/-- C3: for a legal `size`, `dma_tx(size)` returns 0 and leaves `DMA_START` in word 0
(`MM2S_CNTL`), `tx_phy_addr` in word 6 (`MM2S_SRC_ADDR`) and `size` in word 10
(`MM2S_LEN`); it makes four register writes, the last of them to the length register, and
every other word (the `S2MM` words 12, 18 and 22 among them) keeps its value. -/
theorem dma_tx_registers (g : Globals) (size : Int) (rf : RegFile)
    (hsize : check_size size = 0) (haddr : g.tx_phy_addr < 2 ^ 32) :
    MM2S_CNTL_REG / 4 = 0 ∧ MM2S_SRC_ADDR_REG / 4 = 6 ∧ MM2S_LEN_REG / 4 = 10
    ∧ (dma_tx g size rf).1 = 0
    ∧ (dma_tx g size rf).2.word 0 = DMA_START
    ∧ (dma_tx g size rf).2.word 6 = g.tx_phy_addr
    ∧ (((dma_tx g size rf).2.word 10 : Nat) : Int) = size
    ∧ (dma_tx g size rf).2.log = rf.log ++ [Access.write 0 0, Access.write 6 g.tx_phy_addr,
        Access.write 0 1, Access.write 10 size.toNat]
    ∧ (dma_tx g size rf).2.log.getLast? = some (Access.write (MM2S_LEN_REG / 4) size.toNat)
    ∧ (∀ w, w ≠ 0 → w ≠ 6 → w ≠ 10 → (dma_tx g size rf).2.word w = rf.word w)
    ∧ (dma_tx g size rf).2.word 12 = rf.word 12
    ∧ (dma_tx g size rf).2.word 18 = rf.word 18
    ∧ (dma_tx g size rf).2.word 22 = rf.word 22 := by
  obtain ⟨hw1, hw2⟩ := wordOfInt_legal size hsize
  have ha : g.tx_phy_addr % 2 ^ 32 = g.tx_phy_addr := Nat.mod_eq_of_lt haddr
  have htx : dma_tx g size rf =
      (0, { word := fun w => if w = 10 then size.toNat else if w = 0 then 1
                      else if w = 6 then g.tx_phy_addr else if w = 0 then 0 else rf.word w
            log := rf.log ++ [Access.write 0 0, Access.write 6 g.tx_phy_addr,
              Access.write 0 1, Access.write 10 size.toNat] }) := by
    unfold dma_tx
    rw [if_neg (by simp [hsize])]
    simp only [set_dma_reg, hw1, ha]
    simp [MM2S_CNTL_REG, MM2S_SRC_ADDR_REG, MM2S_LEN_REG, DMA_START]
  rw [htx]
  refine ⟨by decide, by decide, by decide, rfl, rfl, rfl, hw2, rfl, ?_, ?_, rfl, rfl, rfl⟩
  · simp [MM2S_LEN_REG]
  · intro w h0 h6 h10
    simp [h0, h6, h10]

/-- Witness for C3: a 64-byte send after a 64-byte receive has been set up. -/
theorem dma_tx_registers_witness :
    check_size 64 = 0
    ∧ (dma_tx { Globals.initial with tx_phy_addr := 0x2000 } 64
        (dma_rx Globals.initial 64 ⟨fun _ => 7, []⟩).2).2.word 6 = 0x2000
    ∧ (dma_tx { Globals.initial with tx_phy_addr := 0x2000 } 64
        (dma_rx Globals.initial 64 ⟨fun _ => 7, []⟩).2).2.word 22
      = (dma_rx Globals.initial 64 ⟨fun _ => 7, []⟩).2.word 22 :=
  ⟨by decide,
   (dma_tx_registers { Globals.initial with tx_phy_addr := 0x2000 } 64
      (dma_rx Globals.initial 64 ⟨fun _ => 7, []⟩).2 (by decide) (by decide)).2.2.2.2.2.1,
   (dma_tx_registers { Globals.initial with tx_phy_addr := 0x2000 } 64
      (dma_rx Globals.initial 64 ⟨fun _ => 7, []⟩).2 (by decide) (by decide)).2.2.2.2.2.2.2.2.2.2.2.2⟩

/-- C10: `dma_reset` writes `DMA_RESET = 4` to word 0 (`MM2S_CNTL`) and to word 12
(`S2MM_CNTL`), in that order, and every other word keeps its value. -/
theorem dma_reset_registers (rf : RegFile) :
    MM2S_CNTL_REG / 4 = 0 ∧ S2MM_CNTL_REG / 4 = 12 ∧ DMA_RESET = 4
    ∧ (dma_reset rf).word 0 = DMA_RESET
    ∧ (dma_reset rf).word 12 = DMA_RESET
    ∧ (dma_reset rf).log = rf.log ++ [Access.write 0 4, Access.write 12 4]
    ∧ ∀ w, w ≠ 0 → w ≠ 12 → (dma_reset rf).word w = rf.word w := by
  refine ⟨by decide, by decide, rfl, rfl, rfl, ?_, ?_⟩
  · simp [dma_reset, set_dma_reg, MM2S_CNTL_REG, S2MM_CNTL_REG, DMA_RESET]
  · intro w h0 h12
    simp [dma_reset, set_dma_reg, MM2S_CNTL_REG, S2MM_CNTL_REG, h0, h12]

/-! ## `dma_sync` -/

/-- The result of `dma_sync` in terms of the loop condition: the call returns with any fuel
of at least 1,000,000, evaluation `r.evals - 1` is the last one, every earlier evaluation
found the condition true, and the value returned is 0 when the last evaluation found it
false and -1 when all 1,000,000 evaluations found it true. -/
theorem dma_sync_result (hw : Nat → Nat → Nat) (rf : RegFile) :
    ∃ r, (∀ extra, dma_sync hw (1000000 + extra) rf = some r)
      ∧ 1 ≤ r.evals ∧ r.evals ≤ 1000000
      ∧ (∀ k, k + 1 < r.evals → busyAt hw rf k = true)
      ∧ ((r.ret = 0 ∧ busyAt hw rf (r.evals - 1) = false)
          ∨ (r.ret = -1 ∧ r.evals = 1000000 ∧ busyAt hw rf (r.evals - 1) = true))
      ∧ ReadsOnly rf r.rf := by
  obtain ⟨r, j, hr, hev, hj, hbusy, hend⟩ := dma_sync_loop_spec hw 999999 0 0 rf (by norm_num)
  have hro : ReadsOnly rf r.rf := by
    rcases hend with ⟨_, _, hrf⟩ | ⟨_, _, _, hrf⟩
    · rw [hrf]
      exact (pollState_readsOnly hw rf j).trans (busy_cond_readsOnly hw _)
    · rw [hrf]
      exact ((pollState_readsOnly hw rf j).trans (busy_cond_readsOnly hw _)).trans
        ((get_dma_reg_readsOnly hw _ _).trans (get_dma_reg_readsOnly hw _ _))
  have hje : r.evals - 1 = j := by omega
  refine ⟨r, fun extra => hr extra, by omega, by omega, fun k hk => hbusy k (by omega), ?_, hro⟩
  rw [hje]
  rcases hend with ⟨h0, hf, _⟩ | ⟨hm, hjn, ht, _⟩
  · exact Or.inl ⟨h0, hf⟩
  · exact Or.inr ⟨hm, by omega, ht⟩

/-- C4: `dma_sync` returns for every behaviour of the hardware, with any fuel of at least
1,000,000, after evaluating the loop condition at most 1,000,000 times.  With
`evalStart hw rf.log.length k` the number of register accesses before evaluation `k`, the
value returned is -1 exactly when on each of the first 1,000,000 evaluations the value read
from the `S2MM` status register (word 13) has bit `0x2` clear, or else the value read next
from the `MM2S` status register (word 1) has bit `0x2` clear; it is 0 exactly when on one of
these evaluations both values have the bit set, and then the loop has stopped at the first
such evaluation.  No other value is returned and the call only reads registers. -/
theorem dma_sync_terminates (hw : Nat → Nat → Nat) (rf : RegFile) :
    S2MM_STATUS_REG / 4 = 13 ∧ MM2S_STATUS_REG / 4 = 1 ∧ DMA_IDLE = 0x2
    ∧ ∃ r, (∀ extra, dma_sync hw (1000000 + extra) rf = some r)
      ∧ 1 ≤ r.evals ∧ r.evals ≤ 1000000
      ∧ (r.ret = -1 ↔ ∀ k, k < 1000000 →
          ((hw (evalStart hw rf.log.length k) 13 % 2 ^ 32) &&& 0x2 = 0
            ∨ (hw (evalStart hw rf.log.length k + 1) 1 % 2 ^ 32) &&& 0x2 = 0))
      ∧ (r.ret = 0 ↔ ∃ k, k < 1000000
          ∧ (hw (evalStart hw rf.log.length k) 13 % 2 ^ 32) &&& 0x2 ≠ 0
          ∧ (hw (evalStart hw rf.log.length k + 1) 1 % 2 ^ 32) &&& 0x2 ≠ 0)
      ∧ (r.ret = -1 ∨ r.ret = 0)
      ∧ (∀ k, k + 1 < r.evals →
          ((hw (evalStart hw rf.log.length k) 13 % 2 ^ 32) &&& 0x2 = 0
            ∨ (hw (evalStart hw rf.log.length k + 1) 1 % 2 ^ 32) &&& 0x2 = 0))
      ∧ (r.ret = 0 →
          (hw (evalStart hw rf.log.length (r.evals - 1)) 13 % 2 ^ 32) &&& 0x2 ≠ 0
          ∧ (hw (evalStart hw rf.log.length (r.evals - 1) + 1) 1 % 2 ^ 32) &&& 0x2 ≠ 0)
      ∧ (r.ret = -1 → r.evals = 1000000)
      ∧ ((∀ t, (hw t 13 % 2 ^ 32) &&& 0x2 = 0) → r.ret = -1)
      ∧ ((hw rf.log.length 13 % 2 ^ 32) &&& 0x2 ≠ 0
          ∧ (hw (rf.log.length + 1) 1 % 2 ^ 32) &&& 0x2 ≠ 0 → r.ret = 0 ∧ r.evals = 1)
      ∧ (∀ k, busyAt hw rf k = true ↔
          ((hw (evalStart hw rf.log.length k) 13 % 2 ^ 32) &&& 0x2 = 0
            ∨ (hw (evalStart hw rf.log.length k + 1) 1 % 2 ^ 32) &&& 0x2 = 0))
      ∧ (∀ k, (pollState hw rf k).log.length = evalStart hw rf.log.length k)
      ∧ (r.ret = -1 ↔ ∀ k, k < 1000000 → busyAt hw rf k = true)
      ∧ (r.ret = 0 ↔ ∃ k, k < 1000000 ∧ busyAt hw rf k = false)
      ∧ r.rf.word = rf.word
      ∧ ∃ reads, r.rf.log = rf.log ++ reads ∧ ∀ a ∈ reads, a.isRead = true := by
  have hb : ∀ k, busyAt hw rf k = true ↔
      ((hw (evalStart hw rf.log.length k) 13 % 2 ^ 32) &&& 0x2 = 0
        ∨ (hw (evalStart hw rf.log.length k + 1) 1 % 2 ^ 32) &&& 0x2 = 0) :=
    fun k => busyAt_iff hw rf k
  have hnb : ∀ k, busyAt hw rf k = false ↔
      ((hw (evalStart hw rf.log.length k) 13 % 2 ^ 32) &&& 0x2 ≠ 0
        ∧ (hw (evalStart hw rf.log.length k + 1) 1 % 2 ^ 32) &&& 0x2 ≠ 0) := by
    intro k
    rw [← Bool.not_eq_true, hb k, not_or]
  obtain ⟨r, hr, he1, he2, hbusy, hend, hro⟩ := dma_sync_result hw rf
  have hm : r.ret = -1 ↔ ∀ k, k < 1000000 → busyAt hw rf k = true := by
    constructor
    · intro h k hk
      rcases hend with ⟨h0, _⟩ | ⟨_, hev, ht⟩
      · rw [h0] at h
        exact absurd h (by decide)
      · rcases Nat.lt_or_ge (k + 1) r.evals with hlt | hge
        · exact hbusy k hlt
        · have hk' : k = r.evals - 1 := by omega
          rw [hk']
          exact ht
    · intro hall
      rcases hend with ⟨_, hf⟩ | ⟨h1, _, _⟩
      · rw [hall (r.evals - 1) (by omega)] at hf
        exact absurd hf (by decide)
      · exact h1
  have hz : r.ret = 0 ↔ ∃ k, k < 1000000 ∧ busyAt hw rf k = false := by
    constructor
    · intro h
      rcases hend with ⟨_, hf⟩ | ⟨h1, _, _⟩
      · exact ⟨r.evals - 1, by omega, hf⟩
      · rw [h1] at h
        exact absurd h (by decide)
    · rintro ⟨k, hk, hf⟩
      rcases hend with ⟨h0, _⟩ | ⟨h1, _, _⟩
      · exact h0
      · rw [hm.1 h1 k hk] at hf
        exact absurd hf (by decide)
  refine ⟨by decide, by decide, rfl, r, hr, he1, he2, ?_, ?_, ?_, ?_, ?_, ?_, ?_, ?_, hb,
    fun k => pollState_length hw rf k, hm, hz, hro.1, hro.2⟩
  · exact hm.trans (forall_congr' fun k => imp_congr_right fun _ => hb k)
  · exact hz.trans (exists_congr fun k => and_congr_right fun _ => hnb k)
  · rcases hend with ⟨h0, _⟩ | ⟨h1, _, _⟩
    · exact Or.inr h0
    · exact Or.inl h1
  · intro k hk
    exact (hb k).1 (hbusy k hk)
  · intro h0
    rcases hend with ⟨_, hf⟩ | ⟨h1, _, _⟩
    · exact (hnb _).1 hf
    · rw [h1] at h0
      exact absurd h0 (by decide)
  · intro h1
    rcases hend with ⟨h0, _⟩ | ⟨_, hev, _⟩
    · rw [h0] at h1
      exact absurd h1 (by decide)
    · exact hev
  · intro hall
    exact hm.2 (fun k _ => (hb k).2 (Or.inl (hall _)))
  · intro hidle
    have h0 : busyAt hw rf 0 = false := (hnb 0).2 hidle
    refine ⟨hz.2 ⟨0, by decide, h0⟩, ?_⟩
    rcases Nat.lt_or_ge 1 r.evals with hlt | hge
    · rw [hbusy 0 hlt] at h0
      exact absurd h0 (by decide)
    · omega

/-- C5: whenever `dma_sync` returns 0, its last two register accesses are the reads of the
final evaluation of the loop condition, a read of the `S2MM` status register followed by a
read of the `MM2S` status register, and both values read have the idle bit `0x2` set. -/
theorem dma_sync_zero_idle (hw : Nat → Nat → Nat) (fuel : Nat) (rf : RegFile)
    (r : SyncResult) (hret : dma_sync hw fuel rf = some r) (hzero : r.ret = 0) :
    ∃ v1 v2, 1 ≤ r.evals
      ∧ busyAt hw rf (r.evals - 1) = false
      ∧ r.rf.log = (pollState hw rf (r.evals - 1)).log
          ++ [Access.read (S2MM_STATUS_REG / 4) v1, Access.read (MM2S_STATUS_REG / 4) v2]
      ∧ rf.log.length ≤ (pollState hw rf (r.evals - 1)).log.length
      ∧ v1 = hw (pollState hw rf (r.evals - 1)).log.length (S2MM_STATUS_REG / 4) % 2 ^ 32
      ∧ v2 = hw ((pollState hw rf (r.evals - 1)).log.length + 1) (MM2S_STATUS_REG / 4) % 2 ^ 32
      ∧ v1 &&& DMA_IDLE ≠ 0 ∧ v2 &&& DMA_IDLE ≠ 0 ∧ DMA_IDLE = 0x2 := by
  obtain ⟨j, hev, hf, hrf⟩ := dma_sync_loop_zero hw fuel 0 0 rf r hret hzero
  have hj : r.evals - 1 = j := by omega
  rw [hj]
  obtain ⟨v1, v2, hlog, h1, h2, hi1, hi2⟩ := busy_cond_false hw (pollState hw rf j) hf
  refine ⟨v1, v2, by omega, hf, by rw [hrf, hlog], ?_, h1, h2, hi1, hi2, rfl⟩
  obtain ⟨_, reads, hl, _⟩ := pollState_readsOnly hw rf j
  rw [hl, List.length_append]
  omega

/-- Witness for C5: the hardware is idle from the start. -/
theorem dma_sync_zero_idle_witness :
    dma_sync (fun _ _ => 2) 1000000 ⟨fun _ => 0, []⟩
      = some ⟨0, 1, ⟨fun _ => 0, [Access.read 13 2, Access.read 1 2]⟩⟩
    ∧ ∃ v1 v2, v1 &&& DMA_IDLE ≠ 0 ∧ v2 &&& DMA_IDLE ≠ 0 :=
  ⟨rfl, by
    obtain ⟨v1, v2, _, _, _, _, _, _, h1, h2, _⟩ :=
      dma_sync_zero_idle (fun _ _ => 2) 1000000 ⟨fun _ => 0, []⟩
        ⟨0, 1, ⟨fun _ => 0, [Access.read 13 2, Access.read 1 2]⟩⟩ rfl rfl
    exact ⟨v1, v2, h1, h2⟩⟩

/-! ## Illegal sizes -/

/-- C9: when `check_size` rejects the size, `dma_rx` and `dma_tx` return -1 and leave the
register file, log included, as it was; `dma_init` returns -1, makes no system call and
leaves every global as it was. -/
theorem illegal_size_atomic (env : InitEnv) (g : Globals) (size : Int) (rf : RegFile)
    (h : check_size size ≠ 0) :
    dma_rx g size rf = (-1, rf) ∧ dma_tx g size rf = (-1, rf)
    ∧ dma_init env size g = ⟨-1, g, []⟩ := by
  have h1 := check_size_illegal size h
  refine ⟨?_, ?_, ?_⟩
  · unfold dma_rx
    rw [if_pos h, h1]
  · unfold dma_tx
    rw [if_pos h, h1]
  · unfold dma_init
    rw [if_pos h, h1]

/-- Witness for C9: a size of 6 bytes is rejected before anything is done. -/
theorem illegal_size_atomic_witness :
    check_size 6 ≠ 0
    ∧ dma_rx Globals.initial 6 ⟨fun _ => 0, []⟩ = (-1, ⟨fun _ => 0, []⟩)
    ∧ dma_tx Globals.initial 6 ⟨fun _ => 0, []⟩ = (-1, ⟨fun _ => 0, []⟩)
    ∧ dma_init okEnv 6 Globals.initial = ⟨-1, Globals.initial, []⟩ :=
  ⟨by decide, illegal_size_atomic okEnv Globals.initial 6 ⟨fun _ => 0, []⟩ (by decide)⟩

/-! ## `dma_init` and `dma_cleanup` -/

/-- C6: with both devices opened, the register block mapped and the request reserving the
tx buffer returning 5, `dma_init` returns 5, which is neither 0 nor -1. -/
theorem dma_init_returns_ioctl_status :
    (dma_init reserveFiveEnv 64 Globals.initial).ret = 5
    ∧ ¬ ((dma_init reserveFiveEnv 64 Globals.initial).ret = 0
          ∨ (dma_init reserveFiveEnv 64 Globals.initial).ret = -1) := by
  decide

/-- For every size and every outcome of the `open`, `mmap` and `ioctl` calls, `dma_init`
returns 0, -1, or the non-zero value returned by one of its six `ioctl` calls. -/
theorem dma_init_return_values (env : InitEnv) (size : Int) (g : Globals) :
    (dma_init env size g).ret = 0 ∨ (dma_init env size g).ret = -1
    ∨ ((dma_init env size g).ret ≠ 0 ∧ (dma_init env size g).ret ∈ env.ioctlStatuses) :=
  dma_init_ret_cases
    (fun v => v = 0 ∨ v = -1 ∨ (v ≠ 0 ∧ v ∈ env.ioctlStatuses)) env size g
    (Or.inl rfl) (Or.inr (Or.inl rfl)) (fun _ hs hne => Or.inr (Or.inr ⟨hne, hs⟩))

/-- C7: with the first, the second or the third `mmap` returning `MAP_FAILED` and every
other call succeeding, `dma_init` returns 0 and leaves `MAP_FAILED` in `dma_cfg_base`,
`txbase` or `rxbase`. -/
theorem dma_init_map_failed :
    MAP_FAILED = 0xFFFFFFFF
    ∧ (dma_init cfgMapFailedEnv 64 Globals.initial).ret = 0
    ∧ (dma_init cfgMapFailedEnv 64 Globals.initial).g.dma_cfg_base = MAP_FAILED
    ∧ (dma_init txMapFailedEnv 64 Globals.initial).ret = 0
    ∧ (dma_init txMapFailedEnv 64 Globals.initial).g.txbase = MAP_FAILED
    ∧ (dma_init rxMapFailedEnv 64 Globals.initial).ret = 0
    ∧ (dma_init rxMapFailedEnv 64 Globals.initial).g.rxbase = MAP_FAILED := by
  decide

/-- C8: after a successful `dma_init` the process holds descriptors 3 and 4, three mapped
regions and two buffers; after `dma_cleanup` the buffers are released, the descriptors are
closed and the register block is unmapped, but the tx and rx buffer regions are still
mapped: `dma_cleanup` makes a single `munmap` call. -/
theorem dma_cleanup_leaves_buffers_mapped :
    (dma_init okEnv 64 Globals.initial).ret = 0
    ∧ Resources.run Resources.none (dma_init okEnv 64 Globals.initial).trace
        = { fds := [4, 3], maps := [0x30000, 0x20000, 0x10000], bufs := [1, 0] }
    ∧ dma_cleanup okEnv.cleanup (dma_init okEnv 64 Globals.initial).g
        = [Syscall.ioctl 4 MemallocCmd.RELEASE ⟨0, 0, 0⟩ ⟨0, 0, 0⟩ 0,
           Syscall.ioctl 4 MemallocCmd.RELEASE ⟨0, 1, 0⟩ ⟨0, 1, 0⟩ 0,
           Syscall.close 4, Syscall.munmap 0x10000 4096, Syscall.close 3]
    ∧ Resources.run Resources.none ((dma_init okEnv 64 Globals.initial).trace
          ++ dma_cleanup okEnv.cleanup (dma_init okEnv 64 Globals.initial).g)
        = { fds := [], maps := [0x30000, 0x20000], bufs := [] }
    ∧ (dma_init okEnv 64 Globals.initial).g.txbase = 0x20000
    ∧ (dma_init okEnv 64 Globals.initial).g.rxbase = 0x30000 := by
  decide

end DmaDriver

namespace BookExamples

/-! ## Lemmas on counting loops -/

theorem forRange_zero {σ : Type} (body : Nat → σ → σ) (lo : Nat) (s : σ) :
    forRange body lo 0 s = s := by
  unfold forRange
  rfl

theorem forRange_succ {σ : Type} (body : Nat → σ → σ) (lo n : Nat) (s : σ) :
    forRange body lo (n + 1) s = forRange body (lo + 1) n (body lo s) := by
  conv_lhs => unfold forRange

/-- Loop invariant rule: a property that holds on entry and is carried from `i` to `i + 1`
by the body holds on exit. -/
theorem forRange_induction {σ : Type} (body : Nat → σ → σ) (P : Nat → σ → Prop) :
    ∀ (n lo : Nat) (s : σ), P lo s →
      (∀ i t, lo ≤ i → i < lo + n → P i t → P (i + 1) (body i t)) →
      P (lo + n) (forRange body lo n s) := by
  intro n
  induction n with
  | zero =>
    intro lo s h0 _
    rw [forRange_zero]
    exact h0
  | succ n ih =>
    intro lo s h0 hstep
    have h1 : P (lo + 1) (body lo s) := hstep lo s (le_refl _) (by omega) h0
    have := ih (lo + 1) (body lo s) h1 (fun i t hi hlt hp => hstep i t (by omega) (by omega) hp)
    rw [forRange_succ, show lo + (n + 1) = lo + 1 + n by omega]
    exact this

/-! ## Lemmas on the LFSR -/

theorem feed_lt : feed < 2 ^ 32 := by decide

theorem feed_bit31 : feed.testBit 31 = true := by decide

theorem lfsr_step_odd (v : Nat) (h : v % 2 = 1) : lfsr_step v = (v / 2) ^^^ feed := by
  unfold lfsr_step
  rw [Nat.and_one_is_mod, h, Nat.shiftRight_eq_div_pow]
  simp

theorem lfsr_step_even (v : Nat) (h : v % 2 = 0) : lfsr_step v = v / 2 := by
  unfold lfsr_step
  rw [Nat.and_one_is_mod, h, Nat.shiftRight_eq_div_pow]
  simp

/-- For an odd 32-bit `v` the fed-back value has bit 31 set. -/
theorem lfsr_step_odd_ge (v : Nat) (hv : v < 2 ^ 32) (h : v % 2 = 1) :
    2 ^ 31 ≤ lfsr_step v := by
  rw [lfsr_step_odd v h]
  apply Nat.testBit_implies_ge
  rw [Nat.testBit_xor, feed_bit31, Nat.testBit_lt_two_pow (by omega : v / 2 < 2 ^ 31)]
  rfl

theorem lfsr_step_even_lt (v : Nat) (hv : v < 2 ^ 32) (h : v % 2 = 0) :
    lfsr_step v < 2 ^ 31 := by
  rw [lfsr_step_even v h]
  omega

theorem lfsr_step_lt (v : Nat) (hv : v < 2 ^ 32) : lfsr_step v < 2 ^ 32 := by
  rcases Nat.mod_two_eq_zero_or_one v with h | h
  · have := lfsr_step_even_lt v hv h
    omega
  · rw [lfsr_step_odd v h]
    exact Nat.xor_lt_two_pow (by omega) feed_lt

theorem lfsr_step_eq_zero (v : Nat) (hv : v < 2 ^ 32) : lfsr_step v = 0 ↔ v = 0 := by
  rcases Nat.mod_two_eq_zero_or_one v with h | h
  · rw [lfsr_step_even v h]
    omega
  · have := lfsr_step_odd_ge v hv h
    constructor
    · intro h0
      omega
    · intro h0
      omega

theorem lfsr_step_inj (v1 v2 : Nat) (h1 : v1 < 2 ^ 32) (h2 : v2 < 2 ^ 32)
    (h : lfsr_step v1 = lfsr_step v2) : v1 = v2 := by
  rcases Nat.mod_two_eq_zero_or_one v1 with p1 | p1 <;>
    rcases Nat.mod_two_eq_zero_or_one v2 with p2 | p2
  · rw [lfsr_step_even v1 p1, lfsr_step_even v2 p2] at h
    omega
  · have a := lfsr_step_even_lt v1 h1 p1
    have b := lfsr_step_odd_ge v2 h2 p2
    omega
  · have a := lfsr_step_odd_ge v1 h1 p1
    have b := lfsr_step_even_lt v2 h2 p2
    omega
  · rw [lfsr_step_odd v1 p1, lfsr_step_odd v2 p2] at h
    have := Nat.xor_left_injective h
    omega

theorem lfsr_iterate_lt (v : Nat) (hv : v < 2 ^ 32) (n : Nat) : lfsr_step^[n] v < 2 ^ 32 := by
  induction n with
  | zero => exact hv
  | succ n ih =>
    rw [Function.iterate_succ_apply']
    exact lfsr_step_lt _ ih

theorem lfsr_iterate_ne_zero (v : Nat) (hv : v < 2 ^ 32) (h0 : v ≠ 0) (n : Nat) :
    lfsr_step^[n] v ≠ 0 := by
  induction n with
  | zero => exact h0
  | succ n ih =>
    rw [Function.iterate_succ_apply']
    intro h
    exact ih ((lfsr_step_eq_zero _ (lfsr_iterate_lt v hv n)).1 h)

/-! ## Lemmas on the input generation of the max-value test -/

/-- What the inner loop leaves behind, in terms of the iterates of the LFSR update. -/
theorem gen_inputs_spec (s : MaxvalState) :
    (gen_inputs s).v = lfsr_step^[2048] s.v
    ∧ (gen_inputs s).errors = s.errors
    ∧ (gen_inputs s).written
        = s.written ++ (List.range 2048).map (fun j => lfsr_step^[j + 1] s.v)
    ∧ (∀ i, i < 2048 → (gen_inputs s).bram i = lfsr_step^[i + 1] s.v)
    ∧ (∀ i, 2048 ≤ i → (gen_inputs s).bram i = s.bram i)
    ∧ (∀ i, i < 2048 → (gen_inputs s).bram i ≤ (gen_inputs s).largest)
    ∧ ∃ i, i < 2048 ∧ (gen_inputs s).bram i = (gen_inputs s).largest := by
  have key := forRange_induction gen_body
    (fun k g => g.v = lfsr_step^[k] s.v
      ∧ g.errors = s.errors
      ∧ g.written = s.written ++ (List.range k).map (fun j => lfsr_step^[j + 1] s.v)
      ∧ (∀ i, i < k → g.bram i = lfsr_step^[i + 1] s.v)
      ∧ (∀ i, k ≤ i → g.bram i = s.bram i)
      ∧ (∀ i, i < k → g.bram i ≤ g.largest)
      ∧ ((k = 0 ∧ g.largest = 0) ∨ ∃ i, i < k ∧ g.bram i = g.largest))
    2048 0 { s with largest := 0 }
    ⟨rfl, rfl, by simp, fun i hi => absurd hi (Nat.not_lt_zero i), fun _ _ => rfl,
      fun i hi => absurd hi (Nat.not_lt_zero i), Or.inl ⟨rfl, rfl⟩⟩
    (by
      intro i t _ _ ⟨hv, he, hw, hb, hrest, hle, hex⟩
      have hv' : lfsr_step t.v = lfsr_step^[i + 1] s.v := by
        rw [Function.iterate_succ_apply', hv]
      refine ⟨hv', he, ?_, ?_, ?_, ?_, ?_⟩
      · show t.written ++ [lfsr_step t.v] = _
        rw [hw, List.range_succ, List.map_append, hv', List.append_assoc]
        rfl
      · intro j hj
        show (if j = i then lfsr_step t.v else t.bram j) = _
        by_cases hji : j = i
        · rw [if_pos hji, hv', hji]
        · rw [if_neg hji]
          exact hb j (by omega)
      · intro j hj
        show (if j = i then lfsr_step t.v else t.bram j) = _
        rw [if_neg (by omega)]
        exact hrest j (by omega)
      · intro j hj
        show (if j = i then lfsr_step t.v else t.bram j)
          ≤ (if lfsr_step t.v > t.largest then lfsr_step t.v else t.largest)
        by_cases hji : j = i
        · rw [if_pos hji]
          split_ifs <;> omega
        · rw [if_neg hji]
          have := hle j (by omega)
          split_ifs <;> omega
      · right
        show ∃ j, j < i + 1 ∧ (if j = i then lfsr_step t.v else t.bram j)
          = (if lfsr_step t.v > t.largest then lfsr_step t.v else t.largest)
        by_cases hgt : lfsr_step t.v > t.largest
        · exact ⟨i, by omega, by rw [if_pos rfl, if_pos hgt]⟩
        · rw [if_neg hgt]
          rcases hex with ⟨hk, hl⟩ | ⟨j, hj, hjb⟩
          · exact ⟨i, by omega, by rw [if_pos rfl]; omega⟩
          · exact ⟨j, by omega, by rw [if_neg (by omega)]; exact hjb⟩)
  rw [Nat.zero_add] at key
  unfold gen_inputs
  generalize forRange gen_body 0 2048 { s with largest := 0 } = g at key ⊢
  obtain ⟨hv, he, hw, hb, hrest, hle, hex⟩ := key
  refine ⟨hv, he, hw, hb, hrest, hle, ?_⟩
  rcases hex with ⟨hk, _⟩ | h
  · exact absurd hk (by decide)
  · exact h

/-- The state after `t` pseudorandom tests: `v` and the values written are iterates of the
LFSR update from the seed 12347. -/
theorem random_tests_spec (hw : Nat → (Nat → Nat) → (Nat → Nat)) (bram : Nat → Nat) :
    (random_tests hw bram).v = lfsr_step^[2048 * randomtests] 12347
    ∧ (random_tests hw bram).written
        = (List.range (2048 * randomtests)).map (fun j => lfsr_step^[j + 1] 12347) := by
  have key := forRange_induction (test_body hw)
    (fun t g => g.v = lfsr_step^[2048 * t] 12347
      ∧ g.written = (List.range (2048 * t)).map (fun j => lfsr_step^[j + 1] 12347))
    randomtests 0 { v := 12347, largest := 0, errors := 0, bram := bram, written := [] }
    ⟨rfl, rfl⟩
    (by
      intro t g _ _ ⟨hv, hw'⟩
      obtain ⟨gv, _, gw, _⟩ := gen_inputs_spec g
      refine ⟨?_, ?_⟩
      · show (gen_inputs g).v = _
        rewrite [gv, hv, ← Function.iterate_add_apply,
          show 2048 + 2048 * t = 2048 * (t + 1) by omega]
        exact Eq.refl _
      · show (gen_inputs g).written = _
        rewrite [gw, hw', hv, show 2048 * (t + 1) = 2048 * t + 2048 by omega, List.range_add,
          List.map_append, List.map_map]
        refine congrArg _ (List.map_congr_left ?_)
        intro j _
        show lfsr_step^[j + 1] (lfsr_step^[2048 * t] 12347) = lfsr_step^[2048 * t + j + 1] 12347
        rewrite [← Function.iterate_add_apply,
          show j + 1 + 2048 * t = 2048 * t + j + 1 by omega]
        exact Eq.refl _)
  rw [Nat.zero_add] at key
  exact key

/-! ## The max-value test -/

/-- C11: the LFSR update maps 0 to 0 and every non-zero 32-bit value to a non-zero value;
the pseudorandom tests, started from `v = 12347`, write `1000*2048` values to the BRAM, the
iterates of the update, and every one of them is non-zero. -/
theorem lfsr_never_zero (hw : Nat → (Nat → Nat) → (Nat → Nat)) (bram : Nat → Nat) :
    lfsr_step 0 = 0
    ∧ (∀ v, v < 2 ^ 32 → v ≠ 0 → lfsr_step v ≠ 0)
    ∧ (random_tests hw bram).written.length = 1000 * 2048
    ∧ (random_tests hw bram).written
        = (List.range (1000 * 2048)).map (fun j => lfsr_step^[j + 1] 12347)
    ∧ ∀ x, x ∈ (random_tests hw bram).written → x ≠ 0 ∧ x < 2 ^ 32 := by
  obtain ⟨_, hw'⟩ := random_tests_spec hw bram
  have hw2 : (random_tests hw bram).written
      = (List.range (1000 * 2048)).map (fun j => lfsr_step^[j + 1] 12347) := by
    rw [hw']
    rfl
  refine ⟨by decide, ?_, ?_, hw2, ?_⟩
  · intro v hv h0 h
    exact h0 ((lfsr_step_eq_zero v hv).1 h)
  · rw [hw2, List.length_map, List.length_range]
  · intro x hx
    rw [hw2] at hx
    obtain ⟨j, _, rfl⟩ := List.mem_map.1 hx
    exact ⟨lfsr_iterate_ne_zero 12347 (by decide) (by decide) (j + 1),
      lfsr_iterate_lt 12347 (by decide) (j + 1)⟩

/-- C12: after the inner loop of a pseudorandom test, entered in any state `s`, `bram[i]`
for `i < 2048` holds the value generated in iteration `i`, `largest` is at least every one
of these 2048 values and equal to one of them, and `largest` is the value `bram[0]` is
compared with after the hardware has run. -/
theorem largest_is_maximum (s : MaxvalState) :
    (∀ i, i < 2048 → (gen_inputs s).bram i = lfsr_step^[i + 1] s.v)
    ∧ (gen_inputs s).written
        = s.written ++ (List.range 2048).map (fun i => (gen_inputs s).bram i)
    ∧ (∀ i, i < 2048 → (gen_inputs s).bram i ≤ (gen_inputs s).largest)
    ∧ (∃ i, i < 2048 ∧ (gen_inputs s).bram i = (gen_inputs s).largest)
    ∧ (s.v < 2 ^ 32 → (gen_inputs s).largest < 2 ^ 32)
    ∧ ∀ (hw : Nat → (Nat → Nat) → (Nat → Nat)) (test : Nat),
        (test_body hw test s).errors
          = if hw test (gen_inputs s).bram 0 ≠ (gen_inputs s).largest then s.errors + 1
            else s.errors := by
  obtain ⟨_, he, hw', hb, _, hle, hex⟩ := gen_inputs_spec s
  refine ⟨hb, ?_, hle, hex, ?_, ?_⟩
  · rewrite [hw']
    refine congrArg _ (List.map_congr_left ?_)
    intro i hi
    exact (hb i (List.mem_range.1 hi)).symm
  · intro hv
    obtain ⟨i, hi, hil⟩ := hex
    rw [← hil, hb i hi]
    exact lfsr_iterate_lt s.v hv (i + 1)
  · intro hw test
    show (if hw test (gen_inputs s).bram 0 ≠ (gen_inputs s).largest
      then (gen_inputs s).errors + 1 else (gen_inputs s).errors) = _
    rw [he]

/-- C20: the LFSR update is injective on the 32-bit values, hence a bijection of them; two
runs of the generator that agree after a step agreed before it; and the feedback constant
is `2^31 + 2^27 + 2^26 + 2^0`, with exactly the bits 31, 27, 26 and 0 set. -/
theorem lfsr_step_bijective :
    Set.InjOn lfsr_step {v | v < 2 ^ 32}
    ∧ Set.BijOn lfsr_step {v | v < 2 ^ 32} {v | v < 2 ^ 32}
    ∧ (∀ m n, lfsr_step^[m + 1] 12347 = lfsr_step^[n + 1] 12347 →
        lfsr_step^[m] 12347 = lfsr_step^[n] 12347)
    ∧ feed = 2 ^ 31 + 2 ^ 27 + 2 ^ 26 + 2 ^ 0
    ∧ ∀ i, feed.testBit i = true ↔ (i = 31 ∨ i = 27 ∨ i = 26 ∨ i = 0) := by
  have hinj : Set.InjOn lfsr_step {v | v < 2 ^ 32} :=
    fun v1 h1 v2 h2 h => lfsr_step_inj v1 v2 h1 h2 h
  have hmaps : Set.MapsTo lfsr_step {v | v < 2 ^ 32} {v | v < 2 ^ 32} :=
    fun v hv => lfsr_step_lt v hv
  refine ⟨hinj, ((Set.finite_lt_nat (2 ^ 32)).injOn_iff_bijOn_of_mapsTo hmaps).1 hinj, ?_,
    by decide, ?_⟩
  · intro m n h
    rw [Function.iterate_succ_apply', Function.iterate_succ_apply'] at h
    exact lfsr_step_inj _ _ (lfsr_iterate_lt 12347 (by decide) m)
      (lfsr_iterate_lt 12347 (by decide) n) h
  · intro i
    rcases Nat.lt_or_ge i 32 with hi | hi
    · interval_cases i <;> decide
    · rw [Nat.testBit_lt_two_pow (lt_of_lt_of_le feed_lt (Nat.pow_le_pow_right (by decide) hi))]
      constructor
      · intro h
        exact absurd h (by decide)
      · intro h
        omega

/-! ## Lemmas on error-counting loops and conversions -/

/-- An error-counting loop entered with a non-negative count leaves with 0 exactly when it
was entered with 0 and no index was bad. -/
theorem count_errors_eq_zero (bad : Nat → Bool) (lo n : Nat) (errors : Int)
    (h0 : 0 ≤ errors) :
    0 ≤ count_errors bad lo n errors
    ∧ (count_errors bad lo n errors = 0
        ↔ errors = 0 ∧ ∀ i, lo ≤ i → i < lo + n → bad i = false) := by
  unfold count_errors
  refine forRange_induction (fun i e => if bad i = true then e + 1 else e)
    (fun k e => 0 ≤ e ∧ (e = 0 ↔ errors = 0 ∧ ∀ i, lo ≤ i → i < k → bad i = false))
    n lo errors ⟨h0, ?_⟩ ?_
  · constructor
    · intro h
      exact ⟨h, fun i h1 h2 => absurd h2 (by omega)⟩
    · intro h
      exact h.1
  · intro i e hlo _ ⟨hnn, hiff⟩
    show 0 ≤ (if bad i = true then e + 1 else e)
      ∧ ((if bad i = true then e + 1 else e) = 0
          ↔ errors = 0 ∧ ∀ j, lo ≤ j → j < i + 1 → bad j = false)
    by_cases hb : bad i = true
    · rw [if_pos hb]
      refine ⟨by omega, ?_⟩
      constructor
      · intro h
        omega
      · intro h
        have := h.2 i hlo (by omega)
        rw [hb] at this
        exact absurd this (by decide)
    · rw [if_neg hb]
      refine ⟨hnn, ?_⟩
      rw [hiff]
      constructor
      · rintro ⟨he, hall⟩
        refine ⟨he, fun j h1 h2 => ?_⟩
        rcases Nat.lt_or_ge j i with hlt | hge
        · exact hall j h1 hlt
        · have hji : j = i := by omega
          rw [hji]
          simpa using hb
      · rintro ⟨he, hall⟩
        exact ⟨he, fun j h1 h2 => hall j h1 (by omega)⟩

theorem toU32_of_small (x : Int) (h0 : 0 ≤ x) (h1 : x < 2 ^ 32) : ((toU32 x : Nat) : Int) = x := by
  unfold toU32
  omega

theorem toI32_of_small (x : Int) (h0 : -2 ^ 31 ≤ x) (h1 : x < 2 ^ 31) : toI32 x = x := by
  unfold toI32
  omega

theorem toI16_of_small (x : Int) (h0 : -2 ^ 15 ≤ x) (h1 : x < 2 ^ 15) : toI16 x = x := by
  unfold toI16
  omega

/-! ## The BRAM reverse test -/

/-- What the input setup loop of the reverse test leaves in the BRAM. -/
theorem rev_setup_spec (bram : Nat → Nat) :
    (∀ i, i < 2048 → rev_setup bram i = i + 1)
    ∧ ∀ i, 2048 ≤ i → rev_setup bram i = bram i := by
  have key := forRange_induction
    (fun i (b : Nat → Nat) => fun j => if j = i then toU32 ((i : Int) + 1) else b j)
    (fun k b => (∀ i, i < k → b i = i + 1) ∧ ∀ i, k ≤ i → b i = bram i)
    2048 0 bram ⟨fun i hi => absurd hi (Nat.not_lt_zero i), fun _ _ => rfl⟩
    (by
      intro i b _ hi ⟨h1, h2⟩
      refine ⟨fun j hj => ?_, fun j hj => ?_⟩
      · show (if j = i then toU32 ((i : Int) + 1) else b j) = j + 1
        by_cases hji : j = i
        · rw [if_pos hji, hji]
          have := toU32_of_small ((i : Int) + 1) (by omega) (by omega)
          omega
        · rw [if_neg hji]
          exact h1 j (by omega)
      · show (if j = i then toU32 ((i : Int) + 1) else b j) = bram j
        rw [if_neg (by omega)]
        exact h2 j (by omega))
  rw [Nat.zero_add] at key
  exact key

/-- C13: with the input `bram[i] = i + 1` in the lower half, the value the check expects at
`bram[2048 + i]` is the input word at index `2047 - i`; so, for BRAM contents whose lower
half still holds the input, the check counts zero errors exactly when the upper half is the
lower half in reverse order. -/
theorem rev_oracle (bram0 mem : Nat → Nat)
    (hlow : ∀ i, i < 2048 → mem i = rev_setup bram0 i) :
    (∀ i, i < 2048 → rev_setup bram0 i = i + 1)
    ∧ (∀ i, i < 2048 → rev_expected i = 2047 - i + 1)
    ∧ (∀ i, i < 2048 → rev_expected i = rev_setup bram0 (2047 - i))
    ∧ (rev_check mem = 0 ↔ ∀ i, i < 2048 → mem (2048 + i) = mem (2047 - i)) := by
  obtain ⟨hset, _⟩ := rev_setup_spec bram0
  have hexp : ∀ i, i < 2048 → rev_expected i = 2047 - i + 1 := by
    intro i hi
    have := toU32_of_small (2047 - (i : Int) + 1) (by omega) (by omega)
    unfold rev_expected
    omega
  refine ⟨hset, hexp, ?_, ?_⟩
  · intro i hi
    rw [hexp i hi, hset (2047 - i) (by omega)]
  · unfold rev_check
    rw [(count_errors_eq_zero _ 0 2048 0 (le_refl 0)).2]
    constructor
    · rintro ⟨_, hall⟩ i hi
      have := hall i (Nat.zero_le i) (by omega)
      rw [hlow (2047 - i) (by omega), hset (2047 - i) (by omega), ← hexp i hi]
      simpa using this
    · intro hall
      refine ⟨rfl, fun i _ hi => ?_⟩
      have := hall i (by omega)
      rw [hlow (2047 - i) (by omega), hset (2047 - i) (by omega), ← hexp i (by omega)] at this
      simpa using this

/-- Witness for C13: the hardware leaves the BRAM as the setup loop wrote it. -/
theorem rev_oracle_witness :
    (∀ i, i < 2048 → rev_setup (fun _ => 0) i = rev_setup (fun _ => 0) i)
    ∧ (rev_check (rev_setup (fun _ => 0)) = 0
        ↔ ∀ i, i < 2048 → rev_setup (fun _ => 0) (2048 + i)
            = rev_setup (fun _ => 0) (2047 - i)) :=
  ⟨fun _ _ => rfl,
    (rev_oracle (fun _ => 0) (rev_setup (fun _ => 0)) (fun _ _ => rfl)).2.2.2⟩

/-! ## Lemmas on 16-bit fields -/

/-- The two's-complement value of a 16-bit field is the `short` conversion of the word
shifted down to the field. -/
theorem field16_eq (w lo : Nat) : field16 w lo = toI16 ((w / 2 ^ lo : Nat) : Int) := by
  unfold field16 toI16
  rw [Nat.shiftRight_eq_div_pow, Nat.testBit_to_div_mod, pow_add, ← Nat.div_div_eq_div_mul]
  generalize w / 2 ^ lo = q
  by_cases h : q / 2 ^ 15 % 2 = 1
  · rw [if_pos (by simpa using h)]
    omega
  · rw [if_neg (by simpa using h)]
    omega

theorem and_ffff (x : Nat) : x &&& 0xffff = x % 2 ^ 16 := by
  have := Nat.and_pow_two_sub_one_eq_mod x 16
  norm_num at this ⊢
  exact this

/-- The packed word is the 16-bit pattern of `a` above the 16-bit pattern of `b`. -/
theorem pack_word_eq (a b : Int) : pack_word a b = word_of_halves a b := by
  unfold pack_word word_of_halves
  have h1 : (toU32 a <<< 16) % 2 ^ 32 = 2 ^ 16 * (a % 2 ^ 16).toNat := by
    rw [Nat.shiftLeft_eq]
    unfold toU32
    omega
  have h2 : toU32 b &&& 0xffff = (b % 2 ^ 16).toNat := by
    rw [and_ffff]
    unfold toU32
    omega
  rw [h1, h2, ← Nat.mul_add_lt_is_or (by omega)]
  omega

theorem word_of_halves_fields (s c : Int) (hs : -2 ^ 15 ≤ s ∧ s < 2 ^ 15)
    (hc : -2 ^ 15 ≤ c ∧ c < 2 ^ 15) :
    word_of_halves s c < 2 ^ 32 ∧ field16 (word_of_halves s c) 16 = s
    ∧ field16 (word_of_halves s c) 0 = c := by
  rw [field16_eq, field16_eq]
  unfold word_of_halves toI16
  refine ⟨by omega, ?_, ?_⟩
  · have : ((s % 2 ^ 16).toNat * 2 ^ 16 + (c % 2 ^ 16).toNat) / 2 ^ 16 = (s % 2 ^ 16).toNat := by
      omega
    rw [this]
    omega
  · rw [pow_zero, Nat.div_one]
    omega

/-! ## The stream multiplier test -/

/-- The operands of test word `i` fit in a `short`. -/
theorem sm_operands (i : Nat) (hi : i < 2048) :
    sm_a i = 100 + (i : Int) ∧ sm_b i = -500 - (i : Int) :=
  ⟨toI16_of_small _ (by omega) (by omega), toI16_of_small _ (by omega) (by omega)⟩

/-- The product of the operands of test word `i` fits in an `int`. -/
theorem sm_product_bounds (i : Nat) (hi : i < 2048) :
    -2 ^ 31 ≤ (100 + (i : Int)) * (-500 - (i : Int))
    ∧ (100 + (i : Int)) * (-500 - (i : Int)) < 2 ^ 31 := by
  have hi' : (i : Int) < 2048 := by exact_mod_cast hi
  have hi0 : (0 : Int) ≤ i := Int.natCast_nonneg i
  constructor
  · nlinarith
  · nlinarith

/-- Storing a 32-bit pattern in an `int` and reading it back as `unsigned int` gives the
pattern. -/
theorem toU32_toI32 (w : Nat) (hw : w < 2 ^ 32) : toU32 (toI32 (w : Int)) = w := by
  unfold toU32 toI32
  omega

/-- C14: for signed 16-bit `a` and `b` the word `a<<16 | (b&0xffff)` fits in 32 bits, its
bits 31..16 read as a two's-complement number give `a` and its bits 15..0 give `b`; for
every `i < 2048` the test's `a = 100 + i` and `b = -500 - i` fit in a `short`, their
product fits in an `int`, and `TxBuff[i]` carries both operands. -/
theorem pack_roundtrip (a b : Int) (ha : -2 ^ 15 ≤ a ∧ a < 2 ^ 15)
    (hb : -2 ^ 15 ≤ b ∧ b < 2 ^ 15) :
    pack_word a b < 2 ^ 32
    ∧ field16 (pack_word a b) 16 = a
    ∧ field16 (pack_word a b) 0 = b
    ∧ ∀ i : Nat, i < 2048 →
        sm_a i = 100 + (i : Int) ∧ sm_b i = -500 - (i : Int)
        ∧ -2 ^ 15 ≤ (100 + (i : Int)) ∧ (100 + (i : Int)) < 2 ^ 15
        ∧ -2 ^ 15 ≤ (-500 - (i : Int)) ∧ (-500 - (i : Int)) < 2 ^ 15
        ∧ -2 ^ 31 ≤ (100 + (i : Int)) * (-500 - (i : Int))
        ∧ (100 + (i : Int)) * (-500 - (i : Int)) < 2 ^ 31
        ∧ sm_expected i = (100 + (i : Int)) * (-500 - (i : Int))
        ∧ toU32 (sm_TxBuff i) = pack_word (sm_a i) (sm_b i)
        ∧ field16 (toU32 (sm_TxBuff i)) 16 = 100 + (i : Int)
        ∧ field16 (toU32 (sm_TxBuff i)) 0 = -500 - (i : Int) := by
  rw [pack_word_eq]
  obtain ⟨h1, h2, h3⟩ := word_of_halves_fields a b ha hb
  refine ⟨h1, h2, h3, ?_⟩
  intro i hi
  obtain ⟨ea, eb⟩ := sm_operands i hi
  obtain ⟨p1, p2⟩ := sm_product_bounds i hi
  have ra : -2 ^ 15 ≤ (100 + (i : Int)) ∧ (100 + (i : Int)) < 2 ^ 15 := by
    clear p1 p2 h1 h2 h3 ea eb
    omega
  have rb : -2 ^ 15 ≤ (-500 - (i : Int)) ∧ (-500 - (i : Int)) < 2 ^ 15 := by
    clear p1 p2 h1 h2 h3 ea eb
    omega
  obtain ⟨w1, w2, w3⟩ := word_of_halves_fields (100 + (i : Int)) (-500 - (i : Int)) ra rb
  have hu : toU32 (sm_TxBuff i) = pack_word (sm_a i) (sm_b i) := by
    unfold sm_TxBuff
    rw [ea, eb, pack_word_eq]
    exact toU32_toI32 _ w1
  refine ⟨ea, eb, ra.1, ra.2, rb.1, rb.2, p1, p2, ?_, hu, ?_, ?_⟩
  · unfold sm_expected
    rw [ea, eb]
    exact toI32_of_small _ p1 p2
  · rw [hu, ea, eb, pack_word_eq]
    exact w2
  · rw [hu, ea, eb, pack_word_eq]
    exact w3

/-- Witness for C14: the operands of the first test word, `a = 100` and `b = -500`. -/
theorem pack_roundtrip_witness :
    (-2 ^ 15 ≤ (100 : Int) ∧ (100 : Int) < 2 ^ 15)
    ∧ (-2 ^ 15 ≤ (-500 : Int) ∧ (-500 : Int) < 2 ^ 15)
    ∧ field16 (pack_word 100 (-500)) 16 = 100
    ∧ field16 (pack_word 100 (-500)) 0 = -500 :=
  ⟨by decide, by decide,
    (pack_roundtrip 100 (-500) (by decide) (by decide)).2.1,
    (pack_roundtrip 100 (-500) (by decide) (by decide)).2.2.1⟩

/-! ## The CORDIC result decoding -/

/-- C19: for every word `w`, `outCos` is the two's-complement value of bits 15..0 of `w`
and `outSin` that of bits 31..16; for signed 16-bit `s` and `c`, decoding the word with
upper half `s` and lower half `c` gives `outSin = s` and `outCos = c`. -/
theorem cordic_decode (w : Nat) (s c : Int) (hs : -2 ^ 15 ≤ s ∧ s < 2 ^ 15)
    (hc : -2 ^ 15 ≤ c ∧ c < 2 ^ 15) :
    outCos w = field16 w 0 ∧ outSin w = field16 w 16
    ∧ word_of_halves s c < 2 ^ 32
    ∧ outSin (word_of_halves s c) = s ∧ outCos (word_of_halves s c) = c := by
  have hcos : ∀ x : Nat, outCos x = field16 x 0 := by
    intro x
    rw [field16_eq]
    unfold outCos toI16
    rw [and_ffff, pow_zero, Nat.div_one]
    omega
  have hsin : ∀ x : Nat, outSin x = field16 x 16 := by
    intro x
    rw [field16_eq]
    unfold outSin
    rw [Nat.shiftRight_eq_div_pow]
  obtain ⟨h1, h2, h3⟩ := word_of_halves_fields s c hs hc
  exact ⟨hcos w, hsin w, h1, by rw [hsin, h2], by rw [hcos, h3]⟩

/-- Witness for C19: the documented output 11585 as cosine and -11585 as sine. -/
theorem cordic_decode_witness :
    (-2 ^ 15 ≤ (-11585 : Int) ∧ (-11585 : Int) < 2 ^ 15)
    ∧ (-2 ^ 15 ≤ (11585 : Int) ∧ (11585 : Int) < 2 ^ 15)
    ∧ outSin (word_of_halves (-11585) 11585) = -11585
    ∧ outCos (word_of_halves (-11585) 11585) = 11585 :=
  ⟨by decide, by decide,
    (cordic_decode 0 (-11585) 11585 (by decide) (by decide)).2.2.2.1,
    (cordic_decode 0 (-11585) 11585 (by decide) (by decide)).2.2.2.2⟩

/-! ## `checkCorrectness` -/

/-- The loop of `checkCorrectness` leaves the memory as it is and either runs through all
`n` remaining indices, all equal, returning 1, or stops with 0 at the first index from `i`
where the arrays differ. -/
theorem checkCorrectness_loop_spec (src dst : Nat) (mem : Nat → Int) :
    ∀ (n i : Nat),
      (checkCorrectness_loop src dst mem n i).mem = mem
      ∧ (((checkCorrectness_loop src dst mem n i).ret = 1
            ∧ (checkCorrectness_loop src dst mem n i).stop = i + n
            ∧ ∀ j, i ≤ j → j < i + n → mem (src + j) = mem (dst + j))
          ∨ ((checkCorrectness_loop src dst mem n i).ret = 0
            ∧ i ≤ (checkCorrectness_loop src dst mem n i).stop
            ∧ (checkCorrectness_loop src dst mem n i).stop < i + n
            ∧ mem (src + (checkCorrectness_loop src dst mem n i).stop)
                ≠ mem (dst + (checkCorrectness_loop src dst mem n i).stop)
            ∧ ∀ j, i ≤ j → j < (checkCorrectness_loop src dst mem n i).stop →
                mem (src + j) = mem (dst + j))) := by
  intro n
  induction n with
  | zero =>
    intro i
    exact ⟨rfl, Or.inl ⟨rfl, rfl, fun j h1 h2 => absurd h2 (by omega)⟩⟩
  | succ n ih =>
    intro i
    by_cases h : mem (src + i) ≠ mem (dst + i)
    · have e : checkCorrectness_loop src dst mem (n + 1) i = ⟨0, i, mem⟩ := by
        rw [checkCorrectness_loop, if_pos h]
      rw [e]
      exact ⟨rfl, Or.inr ⟨rfl, le_refl i, Nat.lt_add_of_pos_right (Nat.succ_pos n), h,
        fun j h1 h2 => absurd h1 (Nat.not_le_of_lt h2)⟩⟩
    · have e : checkCorrectness_loop src dst mem (n + 1) i
          = checkCorrectness_loop src dst mem n (i + 1) := by
        rw [checkCorrectness_loop, if_neg h]
      rw [e]
      have heq : mem (src + i) = mem (dst + i) := not_not.1 h
      obtain ⟨hm, hcase⟩ := ih (i + 1)
      refine ⟨hm, ?_⟩
      rcases hcase with ⟨h1, hs, hall⟩ | ⟨h0, hlo, hhi, hne, hall⟩
      · refine Or.inl ⟨h1, by omega, fun j hj1 hj2 => ?_⟩
        rcases Nat.eq_or_lt_of_le hj1 with hji | hji
        · rw [← hji]; exact heq
        · exact hall j (by omega) (by omega)
      · refine Or.inr ⟨h0, by omega, by omega, hne, fun j hj1 hj2 => ?_⟩
        rcases Nat.eq_or_lt_of_le hj1 with hji | hji
        · rw [← hji]; exact heq
        · exact hall j (by omega) hj2

/-- C15: `checkCorrectness(size, src, dst)` returns 1 exactly when `src[i] == dst[i]` for
every `0 <= i < size` and 0 otherwise; when it returns 0 it has stopped at the first
mismatching index; for `size <= 0` it returns 1; the memory holding the two arrays is left
as it was. -/
theorem checkCorrectness_spec (size : Int) (src dst : Nat) (mem : Nat → Int) :
    ((checkCorrectness size src dst mem).ret = 1
        ↔ ∀ i : Nat, (i : Int) < size → mem (src + i) = mem (dst + i))
    ∧ ((checkCorrectness size src dst mem).ret = 0
        ↔ ∃ i : Nat, (i : Int) < size ∧ mem (src + i) ≠ mem (dst + i))
    ∧ ((checkCorrectness size src dst mem).ret = 1
        ∨ (checkCorrectness size src dst mem).ret = 0)
    ∧ ((checkCorrectness size src dst mem).ret = 0 →
        ((checkCorrectness size src dst mem).stop : Int) < size
        ∧ mem (src + (checkCorrectness size src dst mem).stop)
            ≠ mem (dst + (checkCorrectness size src dst mem).stop)
        ∧ ∀ j, j < (checkCorrectness size src dst mem).stop → mem (src + j) = mem (dst + j))
    ∧ (size ≤ 0 → (checkCorrectness size src dst mem).ret = 1)
    ∧ (checkCorrectness size src dst mem).mem = mem := by
  obtain ⟨hm, hcase⟩ := checkCorrectness_loop_spec src dst mem size.toNat 0
  have hlt : ∀ i : Nat, (i : Int) < size ↔ i < 0 + size.toNat := by
    intro i
    omega
  unfold checkCorrectness
  rcases hcase with ⟨h1, _, hall⟩ | ⟨h0, _, hhi, hne, hall⟩
  · refine ⟨?_, ?_, Or.inl h1, ?_, fun _ => h1, hm⟩
    · exact ⟨fun _ i hi => hall i (Nat.zero_le i) ((hlt i).1 hi), fun _ => h1⟩
    · constructor
      · intro h
        rw [h1] at h
        exact absurd h (by decide)
      · rintro ⟨i, hi, hne⟩
        exact absurd (hall i (Nat.zero_le i) ((hlt i).1 hi)) hne
    · intro h
      rw [h1] at h
      exact absurd h (by decide)
  · refine ⟨?_, ?_, Or.inr h0, ?_, ?_, hm⟩
    · constructor
      · intro h
        rw [h0] at h
        exact absurd h (by decide)
      · intro h
        exact absurd (h _ ((hlt _).2 hhi)) hne
    · exact ⟨fun _ => ⟨_, (hlt _).2 hhi, hne⟩, fun _ => h0⟩
    · intro _
      exact ⟨(hlt _).2 hhi, hne, fun j hj => hall j (Nat.zero_le j) hj⟩
    · intro hs
      omega

/-! ## The `mem_init` programs -/

theorem mem_init_layout :
    numInts = 2097152 ∧ checkbin_numInts = 4194304 ∧ inputLocation = 262144
    ∧ outputLocation = 2359296 := by
  decide

/-- The data `createbin` writes: `i + 9000` at index `i < numInts`. -/
theorem createbin_spec (heap : Nat → Int) :
    ∀ i, i < numInts → createbin heap i = (i : Int) + 9000 := by
  obtain ⟨hN, _, _, _⟩ := mem_init_layout
  have key := forRange_induction
    (fun i (d : Nat → Int) => fun j => if j = i then toI32 ((i : Int) + 9000) else d j)
    (fun k d => k ≤ numInts ∧ ∀ i, i < k → d i = (i : Int) + 9000)
    numInts 0 heap ⟨Nat.zero_le _, fun i hi => absurd hi (Nat.not_lt_zero i)⟩
    (by
      intro i d _ hi ⟨_, h1⟩
      refine ⟨by omega, fun j hj => ?_⟩
      show (if j = i then toI32 ((i : Int) + 9000) else d j) = (j : Int) + 9000
      by_cases hji : j = i
      · rw [if_pos hji, hji]
        exact toI32_of_small _ (by omega) (by omega)
      · rw [if_neg hji]
        exact h1 j (by omega))
  rw [Nat.zero_add] at key
  exact key.2

/-- The memory after the store loop of `memtest`: the output region holds the input plus 27
(wrapped to an `int`), everything outside the output region is as before. -/
theorem memtest_store_spec (mem : Nat → Int) :
    (∀ i, i < numInts →
        memtest_store mem (outputLocation + i) = toI32 (mem (inputLocation + i) + 27))
    ∧ ∀ a, a < outputLocation ∨ outputLocation + numInts ≤ a → memtest_store mem a = mem a := by
  obtain ⟨hN, _, hin, hout⟩ := mem_init_layout
  have key := forRange_induction
    (fun i (m : Nat → Int) => fun a =>
      if a = outputLocation + i then toI32 (m (inputLocation + i) + 27) else m a)
    (fun k m => k ≤ numInts
      ∧ (∀ i, i < k → m (outputLocation + i) = toI32 (mem (inputLocation + i) + 27))
      ∧ ∀ a, a < outputLocation ∨ outputLocation + k ≤ a → m a = mem a)
    numInts 0 mem
    ⟨Nat.zero_le _, fun i hi => absurd hi (Nat.not_lt_zero i), fun _ _ => rfl⟩
    (by
      intro i m _ hi ⟨_, h1, h2⟩
      have hsrc : m (inputLocation + i) = mem (inputLocation + i) := h2 _ (Or.inl (by omega))
      refine ⟨by omega, fun j hj => ?_, fun a ha => ?_⟩
      · show (if outputLocation + j = outputLocation + i
            then toI32 (m (inputLocation + i) + 27) else m (outputLocation + j)) = _
        by_cases hji : j = i
        · rw [if_pos (by omega), hsrc, hji]
        · rw [if_neg (by omega)]
          exact h1 j (by omega)
      · show (if a = outputLocation + i then toI32 (m (inputLocation + i) + 27) else m a) = _
        rw [if_neg (by omega)]
        exact h2 a (by omega))
  rw [Nat.zero_add] at key
  exact ⟨key.2.1, key.2.2⟩

/-- C16: if the reserved input region holds the data written by `createbin`, then `memtest`
counts 0 errors in its input check, leaves `input[i] + 27` at `outputLocation[i]` and the
input region unchanged, counts 0 errors in its output check, and `checkbin` reports 0
errors on the dump of the two regions. -/
theorem mem_init_end_to_end (heap mem : Nat → Int)
    (hrestore : ∀ i, i < numInts → mem (inputLocation + i) = createbin heap i) :
    numInts = 2 ^ 21 ∧ checkbin_numInts = 2 ^ 22
    ∧ outputLocation = inputLocation + numInts
    ∧ (∀ i, i < numInts → createbin heap i = (i : Int) + 9000)
    ∧ (memtest mem).inputErrors = 0
    ∧ (∀ i, i < numInts →
        (memtest mem).mem (outputLocation + i) = mem (inputLocation + i) + 27)
    ∧ (∀ i, i < numInts → (memtest mem).mem (inputLocation + i) = mem (inputLocation + i))
    ∧ (memtest mem).outputErrors = 0
    ∧ checkbin_first (dump (memtest mem).mem) = 0
    ∧ checkbin (dump (memtest mem).mem) = 0 := by
  obtain ⟨hN, hC, hin, hout⟩ := mem_init_layout
  have hcreate := createbin_spec heap
  obtain ⟨hst, hrest⟩ := memtest_store_spec mem
  have hinput : ∀ i, i < numInts → mem (inputLocation + i) = (i : Int) + 9000 :=
    fun i hi => (hrestore i hi).trans (hcreate i hi)
  have hout' : ∀ i, i < numInts →
      memtest_store mem (outputLocation + i) = (i : Int) + 9027 := by
    intro i hi
    rw [hst i hi, hinput i hi]
    have := toI32_of_small ((i : Int) + 9000 + 27) (by omega) (by omega)
    omega
  have hkeep : ∀ i, i < numInts →
      memtest_store mem (inputLocation + i) = mem (inputLocation + i) :=
    fun i hi => hrest _ (Or.inl (by omega))
  have hfirst : checkbin_first (dump (memtest_store mem)) = 0 := by
    unfold checkbin_first
    rw [(count_errors_eq_zero _ 0 _ 0 (le_refl 0)).2]
    refine ⟨rfl, fun i _ hi => ?_⟩
    have hi' : i < numInts := by omega
    have e : dump (memtest_store mem) i = (i : Int) + 9000 := by
      show memtest_store mem (inputLocation + i) = _
      rw [hkeep i hi', hinput i hi']
    rw [e, toI32_of_small _ (by omega) (by omega)]
    simp
  refine ⟨by rw [hN]; norm_num, by rw [hC]; norm_num, by omega, hcreate, ?_, ?_, hkeep, ?_,
    hfirst, ?_⟩
  · show count_errors _ 0 numInts 0 = 0
    rw [(count_errors_eq_zero _ 0 numInts 0 (le_refl 0)).2]
    refine ⟨rfl, fun i _ hi => ?_⟩
    have hi' : i < numInts := by omega
    rw [hinput i hi', toI32_of_small _ (by omega) (by omega)]
    simp [add_comm]
  · intro i hi
    show memtest_store mem (outputLocation + i) = _
    rw [hout' i hi, hinput i hi]
    omega
  · show count_errors _ 0 numInts 0 = 0
    rw [(count_errors_eq_zero _ 0 numInts 0 (le_refl 0)).2]
    refine ⟨rfl, fun i _ hi => ?_⟩
    have hi' : i < numInts := by omega
    rw [hout' i hi', toI32_of_small _ (by omega) (by omega)]
    simp [add_comm]
  · show checkbin (dump (memtest_store mem)) = 0
    unfold checkbin
    rw [(count_errors_eq_zero _ _ _ _ (by rw [hfirst])).2]
    refine ⟨hfirst, fun i hlo hi => ?_⟩
    have hk : i - numInts < numInts := by omega
    have e : dump (memtest_store mem) i = ((i - numInts : Nat) : Int) + 9027 := by
      show memtest_store mem (inputLocation + i) = _
      rw [show inputLocation + i = outputLocation + (i - numInts) by omega]
      exact hout' _ hk
    have hhalf : checkbin_numInts / 2 = numInts := by omega
    rw [e, hhalf, toI32_of_small _ (by omega) (by omega)]
    simp
    omega

/-- Witness for C16: the reserved region holds the very array `createbin` has written, and
the rest of the memory is 0. -/
theorem mem_init_end_to_end_witness :
    (∀ i, i < numInts →
      (fun a => if inputLocation ≤ a ∧ a < inputLocation + numInts
        then createbin (fun _ => 0) (a - inputLocation) else 0) (inputLocation + i)
        = createbin (fun _ => 0) i)
    ∧ checkbin (dump (memtest (fun a => if inputLocation ≤ a ∧ a < inputLocation + numInts
        then createbin (fun _ => 0) (a - inputLocation) else 0)).mem) = 0 :=
  ⟨fun i hi => by
      show (if inputLocation ≤ inputLocation + i ∧ inputLocation + i < inputLocation + numInts
        then createbin (fun _ => 0) (inputLocation + i - inputLocation) else 0) = _
      rw [if_pos ⟨by omega, by omega⟩, Nat.add_sub_cancel_left],
    (mem_init_end_to_end (fun _ => 0)
      (fun a => if inputLocation ≤ a ∧ a < inputLocation + numInts
        then createbin (fun _ => 0) (a - inputLocation) else 0)
      (fun i hi => by
        show (if inputLocation ≤ inputLocation + i
            ∧ inputLocation + i < inputLocation + numInts
          then createbin (fun _ => 0) (inputLocation + i - inputLocation) else 0) = _
        rw [if_pos ⟨by omega, by omega⟩, Nat.add_sub_cancel_left])).2.2.2.2.2.2.2.2.2⟩

/-! ## Transfer sizes of the DMA examples -/

/-- C17: for a positive multiple `n` of 8, the byte length `4*n` is below `2^14` exactly
when `n <= 4088`, and exactly then `check_size(4*n)` of the PetaLinux driver returns 0; the
`TXSIZE` constants 4088, 8 and 2048 of the DMA examples are positive multiples of 8 not
above 4088, and `check_size(4*TXSIZE)` is 0 for each of them. -/
theorem txsize_rule (n : Nat) (hpos : 0 < n) (h8 : n % 8 = 0) :
    (4 * (n : Int) < 2 ^ DmaDriver.MAX_DMA_LEN_BITS ↔ n ≤ 4088)
    ∧ (DmaDriver.check_size (4 * (n : Int)) = 0 ↔ n ≤ 4088)
    ∧ (loopback_TXSIZE = 4088 ∧ cordic_TXSIZE = 8 ∧ streammult_TXSIZE = 2048)
    ∧ (0 < loopback_TXSIZE ∧ loopback_TXSIZE % 8 = 0 ∧ loopback_TXSIZE ≤ 4088
        ∧ DmaDriver.check_size (4 * (loopback_TXSIZE : Int)) = 0)
    ∧ (0 < cordic_TXSIZE ∧ cordic_TXSIZE % 8 = 0 ∧ cordic_TXSIZE ≤ 4088
        ∧ DmaDriver.check_size (4 * (cordic_TXSIZE : Int)) = 0)
    ∧ (0 < streammult_TXSIZE ∧ streammult_TXSIZE % 8 = 0 ∧ streammult_TXSIZE ≤ 4088
        ∧ DmaDriver.check_size (4 * (streammult_TXSIZE : Int)) = 0) := by
  refine ⟨?_, ?_, ⟨rfl, rfl, rfl⟩, by decide, by decide, by decide⟩
  · show 4 * (n : Int) < 2 ^ 14 ↔ n ≤ 4088
    omega
  · rw [DmaDriver.check_size_eq]
    by_cases h : n ≤ 4088
    · rw [if_pos ⟨by omega, by omega, by omega⟩]
      exact ⟨fun _ => h, fun _ => rfl⟩
    · rw [if_neg (by omega)]
      exact ⟨fun hc => absurd hc (by decide), fun hc => absurd hc h⟩

/-- Witness for C17: the largest admissible size, `n = 4088`. -/
theorem txsize_rule_witness :
    0 < 4088 ∧ 4088 % 8 = 0
    ∧ (4 * ((4088 : Nat) : Int) < 2 ^ DmaDriver.MAX_DMA_LEN_BITS ↔ 4088 ≤ 4088)
    ∧ (DmaDriver.check_size (4 * ((4088 : Nat) : Int)) = 0 ↔ 4088 ≤ 4088) :=
  ⟨by decide, by decide, (txsize_rule 4088 (by decide) (by decide)).1,
    (txsize_rule 4088 (by decide) (by decide)).2.1⟩

/-! ## The CORDIC phase inputs -/

/-- Rounding a real number that lies strictly within one half of the integer `z`. -/
theorem round_eq_of_near (x : ℝ) (z : ℤ) (h1 : (z : ℝ) - 1 / 2 ≤ x) (h2 : x < (z : ℝ) + 1 / 2) :
    round x = z := by
  rw [round_eq, Int.floor_eq_iff]
  constructor
  · linarith
  · linarith

/-- C18: the phase inputs in `TxBuff` are the encodings `round(N * 2^29)`:
`round(pi * 2^29) = 1686629713`, `TxBuff[3] = 843314857 = round((pi/2) * 2^29)`,
`TxBuff[5] = 421657428 = round((pi/4) * 2^29)`, `TxBuff[7] = 281104952 =
round((pi/6) * 2^29)`, `TxBuff[4]` and `TxBuff[6]` are the negations of `TxBuff[3]` and
`TxBuff[5]`, `TxBuff[1] = 0x20000000 = 1 * 2^29`, and `TxBuff[2]`, the constant `0xe0000000`
read as a signed 32-bit integer, is `-1 * 2^29`. -/
theorem cordic_phase_encoding :
    round (Real.pi * 2 ^ 29) = 1686629713
    ∧ cordic_TxBuff[3]? = some 843314857
    ∧ round (Real.pi / 2 * 2 ^ 29) = 843314857
    ∧ cordic_TxBuff[4]? = some (-843314857)
    ∧ cordic_TxBuff[5]? = some 421657428
    ∧ round (Real.pi / 4 * 2 ^ 29) = 421657428
    ∧ cordic_TxBuff[6]? = some (-421657428)
    ∧ cordic_TxBuff[7]? = some 281104952
    ∧ round (Real.pi / 6 * 2 ^ 29) = 281104952
    ∧ cordic_TxBuff[0]? = some 0
    ∧ cordic_TxBuff[1]? = some (1 * 2 ^ 29)
    ∧ (0x20000000 : Int) = 1 * 2 ^ 29
    ∧ cordic_TxBuff[2]? = some (-1 * 2 ^ 29)
    ∧ toI32 0xe0000000 = -1 * 2 ^ 29 := by
  have hlo := Real.pi_gt_d20
  have hhi := Real.pi_lt_d20
  refine ⟨?_, by decide, ?_, by decide, by decide, ?_, by decide, by decide, ?_, by decide,
    by decide, by decide, by decide, by decide⟩
  · apply round_eq_of_near
    · push_cast
      norm_num at hlo hhi ⊢
      linarith
    · push_cast
      norm_num at hlo hhi ⊢
      linarith
  · apply round_eq_of_near
    · push_cast
      norm_num at hlo hhi ⊢
      linarith
    · push_cast
      norm_num at hlo hhi ⊢
      linarith
  · apply round_eq_of_near
    · push_cast
      norm_num at hlo hhi ⊢
      linarith
    · push_cast
      norm_num at hlo hhi ⊢
      linarith
  · apply round_eq_of_near
    · push_cast
      norm_num at hlo hhi ⊢
      linarith
    · push_cast
      norm_num at hlo hhi ⊢
      linarith

end BookExamples
